import Mathlib

/-!
Verification development for the ItemDefinition Reviewer plugin.

The central piece of logic in the repository is `parse_markdown_table`
(three textually identical copies in `helpers.py`, `tool_review.py` and
`hook_export.py`).  It runs the Python regular expression

    (\|.*\|\s*\|[-:]*[-|]\s*(?:\|.*\|[\s\d]*)+)       with re.DOTALL

over the input via `findall`, and then, for every matched block, splits the
block into stripped lines, reads the column names from line 0, and turns
every line from index 2 on into a dict by zipping the column names with the
stripped cell contents, skipping lines whose cells are all empty.

We embed this faithfully: a backtracking matcher for exactly this pattern
with Python's leftmost / greedy-priority semantics (DOTALL makes `.` match
newlines), Python's `str.strip` / `str.split` / `dict(zip(..))` semantics on
`List Char` / `String`, and the scan loop of `findall`.
-/

namespace ItemDefReview

/-- Python regex `\s` on the ASCII range (space, tab, newline, carriage
return, vertical tab, form feed). -/
def pySpace (c : Char) : Bool :=
  c = ' ' || c = '\t' || c = '\n' || c = '\r' || c = '\x0b' || c = '\x0c'

/-- Python regex `\d` on the ASCII range. -/
def pyDigit (c : Char) : Bool :=
  '0' ≤ c && c ≤ '9'

/-- Character class `[\s\d]` of the trailing part of each data-row group. -/
def spaceDigit (c : Char) : Bool :=
  pySpace c || pyDigit c

/-- Character class `[-:]` of the separator part of the pattern. -/
def dashColon (c : Char) : Bool :=
  c = '-' || c = ':'

/-- Character class `[-|]` of the separator part of the pattern. -/
def dashPipe (c : Char) : Bool :=
  c = '-' || c = '|'

/-- Character class of `.` under `re.DOTALL`: every character. -/
def anyChar (_ : Char) : Bool :=
  true

/-- A continuation for the backtracking matcher: receives the rest of the
input and either finishes the whole match (returning the final rest) or
fails, causing backtracking in the caller. -/
def MatchK : Type :=
  List Char → Option (List Char)

/-- A matcher piece: consumes a prefix of the input and hands the rest to the
continuation, exploring its own alternatives in priority order. -/
def Matcher : Type :=
  List Char → MatchK → Option (List Char)

/-- Matches one literal character. -/
def mChar (c : Char) : Matcher := fun s k =>
  match s with
  | [] => none
  | x :: xs => if x = c then k xs else none

/-- Matches one character of a class. -/
def mClass (p : Char → Bool) : Matcher := fun s k =>
  match s with
  | [] => none
  | x :: xs => if p x then k xs else none

/-- Backtracking helper for a greedy character-class star: try the
continuation after dropping `n` characters, then `n - 1`, …, then `0`.
Longest first is exactly the greedy priority order of the Python engine. -/
def tryDrops (k : MatchK) (s : List Char) : Nat → Option (List Char)
  | 0 => k s
  | n + 1 =>
    match k (s.drop (n + 1)) with
    | some r => some r
    | none => tryDrops k s n

/-- Greedy `p*` over a character class: consume up to the maximal run of
`p`-characters, preferring the longest. -/
def mClassStar (p : Char → Bool) : Matcher := fun s k =>
  tryDrops k s (s.takeWhile p).length

/-- Sequencing of matcher pieces. -/
def mSeq (m1 m2 : Matcher) : Matcher := fun s k =>
  m1 s fun t => m2 t k

/-- Greedy star of a general group, with fuel bounding the number of
iterations (the group of our pattern always consumes at least two
characters, so `fuel = length of the input` is always enough; this is
proved as fuel-indifference below).  An iteration that consumes nothing is
rejected, exactly as the Python engine refuses zero-width repeats. -/
def mStarFuel (m : Matcher) : Nat → Matcher
  | 0 => fun s k => k s
  | n + 1 => fun s k =>
    match m s (fun t => if t.length < s.length then mStarFuel m n t k else none) with
    | some r => some r
    | none => k s

/-- The repeated data-row group `(?:\|.*\|[\s\d]*)` of the pattern. -/
def rowGroup : Matcher :=
  mSeq (mChar '|') (mSeq (mClassStar anyChar) (mSeq (mChar '|') (mClassStar spaceDigit)))

/-- The part of the pattern after the `[-|]` of the separator:
`\s*(?:\|.*\|[\s\d]*)+`. -/
def afterSep (fuel : Nat) : Matcher :=
  mSeq (mClassStar pySpace) (mSeq rowGroup (mStarFuel rowGroup fuel))

/-- The separator part of the pattern and everything after it:
`\|[-:]*[-|]\s*(?:\|.*\|[\s\d]*)+`. -/
def sepPart (fuel : Nat) : Matcher :=
  mSeq (mChar '|') (mSeq (mClassStar dashColon) (mSeq (mClass dashPipe) (afterSep fuel)))

/-- The pattern from its second `\|` on: `\|\s*\|[-:]*[-|]\s*(?:\|.*\|[\s\d]*)+`. -/
def hdrEnd (fuel : Nat) : Matcher :=
  mSeq (mChar '|') (mSeq (mClassStar pySpace) (sepPart fuel))

/-- The whole pattern `\|.*\|\s*\|[-:]*[-|]\s*(?:\|.*\|[\s\d]*)+` compiled
with `re.DOTALL`. -/
def tablePattern (fuel : Nat) : Matcher :=
  mSeq (mChar '|') (mSeq (mClassStar anyChar) (hdrEnd fuel))

/-- Tries the pattern at the current position; on success returns the length
of the matched prefix (the priority-first match of the Python engine). -/
def matchHere (s : List Char) : Option Nat :=
  match tablePattern s.length s (fun rest => some rest) with
  | some rest => some (s.length - rest.length)
  | none => none

/-- The scan loop of `re.findall`: try a match at every position, from left
to right; a successful match is recorded and scanning resumes after it. -/
def scanFuel : Nat → List Char → List (List Char)
  | 0, _ => []
  | fuel + 1, s =>
    match matchHere s with
    | some 0 =>
      match s with
      | [] => [[]]
      | _ :: xs => [] :: scanFuel fuel xs
    | some (c + 1) => s.take (c + 1) :: scanFuel fuel (s.drop (c + 1))
    | none =>
      match s with
      | [] => []
      | _ :: xs => scanFuel fuel xs

/-- Python `str.strip()` on the ASCII range. -/
def stripChars (s : List Char) : List Char :=
  ((s.dropWhile pySpace).reverse.dropWhile pySpace).reverse

/-- Python `str.split(sep)` for a one-character separator: splits on every
occurrence, keeping empty pieces. -/
def splitChar (sep : Char) : List Char → List (List Char)
  | [] => [[]]
  | c :: cs =>
    match splitChar sep cs with
    | [] => [[]]
    | g :: gs => if c = sep then [] :: g :: gs else (c :: g) :: gs

/-- Python `line.split('|')[1:-1]`: all pieces of the pipe-split except the
first and the last one. -/
def innerCells (line : List Char) : List (List Char) :=
  ((splitChar '|' line).drop 1).dropLast

/-- Python `[c.strip() for c in line.split('|')[1:-1]]`, used both for the
header row and for every data row. -/
def rowCells (line : List Char) : List String :=
  (innerCells line).map fun c => String.mk (stripChars c)

/-- One insertion with Python `dict` semantics: an existing key is updated
in place (keeping its position), a new key is appended. -/
def pyDictInsert (d : List (String × String)) (key v : String) : List (String × String) :=
  match d with
  | [] => [(key, v)]
  | (k0, v0) :: rest =>
    if k0 = key then (key, v) :: rest else (k0, v0) :: pyDictInsert rest key v

/-- Python `dict(pairs)`: fold the pairs into an insertion-ordered dict. -/
def pyDictOfPairs (l : List (String × String)) : List (String × String) :=
  l.foldl (fun d kv => pyDictInsert d kv.1 kv.2) []

/-- Python `dict.get` with a default. -/
def pyDictGet (d : List (String × String)) (key dflt : String) : String :=
  match d with
  | [] => dflt
  | (k0, v0) :: rest => if k0 = key then v0 else pyDictGet rest key dflt

/-- Python `dict.get` without a default (`None` on a miss). -/
def pyDictFind (d : List (String × String)) (key : String) : Option String :=
  match d with
  | [] => none
  | (k0, v0) :: rest => if k0 = key then some v0 else pyDictFind rest key

/-- The body of the data-row loop: compute the stripped cells, skip the row
if every cell is empty (`if not any(cells): continue`), otherwise produce
`dict(zip(headers, cells))`. -/
def rowRecord (headers : List String) (line : List Char) : Option (List (String × String)) :=
  let cells := rowCells line
  if cells.any (fun c => c ≠ "") then some (pyDictOfPairs (headers.zip cells)) else none

/-- Processing of one matched table block: split the stripped block into
stripped lines, require at least two lines, read the headers from line 0 and
turn every line from index 2 on into a record. -/
def processTable (table : List Char) : List (List (String × String)) :=
  match (splitChar '\n' (stripChars table)).map stripChars with
  | [] => []
  | l0 :: rest =>
    if rest.length = 0 then []
    else
      (rest.drop 1).foldl
        (fun acc line =>
          match rowRecord (rowCells l0) line with
          | some r => acc ++ [r]
          | none => acc)
        []

/-- `parse_markdown_table` on a character list, with explicit scan fuel. -/
def parseTablesAux (fuel : Nat) (s : List Char) : List (List (String × String)) :=
  ((scanFuel fuel s).map processTable).flatten

/-- `parse_markdown_table` from `helpers.py` (and its identical copies in
`tool_review.py` and `hook_export.py`): find every table block with the
regex and concatenate the records of all blocks in appearance order. -/
def parse_markdown_table (text : String) : List (List (String × String)) :=
  parseTablesAux (text.data.length + 1) text.data

/-- A character list with no pipe character in it. -/
def PipeFree (s : List Char) : Prop :=
  '|' ∉ s

/-- Decides whether a string starts with `[-:]*` followed by one `[-|]`
character, the shape required right after the third `\|` of the pattern. -/
def sepRunB : List Char → Bool
  | [] => false
  | c :: cs => dashPipe c || (dashColon c && sepRunB cs)

/-- Decides whether the text anywhere contains a `\|[-:]*[-|]` substring,
the separator anchor of the pattern (note that `[-|]` also accepts a pipe,
so two adjacent pipes qualify). -/
def hasSepLike : List Char → Bool
  | [] => false
  | c :: cs => (c = '|' && sepRunB cs) || hasSepLike cs

/-- The hypothesis of the claim about false-positive table detection, taken
from its words: a line is a separator row when its content between pipes
consists of dashes/colons with at least one dash or colon. -/
def isSeparatorLine (line : List Char) : Bool :=
  let content := (innerCells line).flatten
  !content.isEmpty && content.all dashColon

/-- No line of the text is a separator row in the sense of the claim. -/
def noSeparatorRow (s : List Char) : Bool :=
  (splitChar '\n' s).all fun line => !(isSeparatorLine line)

/-- A well-formed one-data-row markdown table with one-character cells:
header row `| a | b |`, separator row `|---|---|`, data row `| x | y |`. -/
def tableOf (a b x y : Char) : List Char :=
  ['|', ' ', a, ' ', '|', ' ', b, ' ', '|', '\n',
   '|', '-', '-', '-', '|', '-', '-', '-', '|', '\n',
   '|', ' ', x, ' ', '|', ' ', y, ' ', '|']

/-- The concrete well-formed table of the claim about single-table inputs:
header row `| A | B |`, separator row `|---|---|`, data row `| x | y |`. -/
def tableT1 : List Char :=
  tableOf 'A' 'B' 'x' 'y'

/-- A second concrete well-formed table (header `| C | D |`, data
`| u | v |`) for the claim about multiple tables. -/
def tableT2 : List Char :=
  tableOf 'C' 'D' 'u' 'v'

/-- A JSON value, the result of Python `json.load` on the checklist file.
Numeric literals keep their raw lexeme. -/
inductive Json where
  | null : Json
  | bool (b : Bool) : Json
  | num (raw : String) : Json
  | str (s : String) : Json
  | arr (items : List Json) : Json
  | obj (fields : List (String × Json)) : Json

/-- JSON whitespace. -/
def jsonWs (c : Char) : Bool :=
  c = ' ' || c = '\t' || c = '\n' || c = '\r'

/-- Hex digit decoding for `\uXXXX` string escapes. -/
def hexVal (c : Char) : Option Nat :=
  if '0' ≤ c ∧ c ≤ '9' then some (c.toNat - '0'.toNat)
  else if 'a' ≤ c ∧ c ≤ 'f' then some (c.toNat - 'a'.toNat + 10)
  else if 'A' ≤ c ∧ c ≤ 'F' then some (c.toNat - 'A'.toNat + 10)
  else none

/-- Parses the body of a JSON string literal (after the opening quote),
with the standard escapes. -/
def parseJsonString : Nat → List Char → Option (List Char × List Char)
  | 0, _ => none
  | _ + 1, [] => none
  | fuel + 1, c :: cs =>
    if c = '"' then some ([], cs)
    else if c = '\\' then
      match cs with
      | [] => none
      | e :: cs2 =>
        if e = 'u' then
          match cs2 with
          | h1 :: h2 :: h3 :: h4 :: cs3 =>
            match hexVal h1, hexVal h2, hexVal h3, hexVal h4 with
            | some v1, some v2, some v3, some v4 =>
              match parseJsonString fuel cs3 with
              | some (body, rest) =>
                some (Char.ofNat (((v1 * 16 + v2) * 16 + v3) * 16 + v4) :: body, rest)
              | none => none
            | _, _, _, _ => none
          | _ => none
        else
          match
            (if e = '"' then some '"'
             else if e = '\\' then some '\\'
             else if e = '/' then some '/'
             else if e = 'b' then some '\x08'
             else if e = 'f' then some '\x0c'
             else if e = 'n' then some '\n'
             else if e = 'r' then some '\r'
             else if e = 't' then some '\t'
             else none) with
          | some d =>
            match parseJsonString fuel cs2 with
            | some (body, rest) => some (d :: body, rest)
            | none => none
          | none => none
    else if c.toNat < 32 then none
    else
      match parseJsonString fuel cs with
      | some (body, rest) => some (c :: body, rest)
      | none => none

/-- Scans a JSON number lexeme: `-?(0|[1-9][0-9]*)(\.[0-9]+)?([eE][+-]?[0-9]+)?`. -/
def scanJsonNumber (s : List Char) : Option (List Char × List Char) :=
  let sign : List Char × List Char :=
    match s with
    | '-' :: rest => (['-'], rest)
    | _ => ([], s)
  let afterSign := sign.2
  let intPart : Option (List Char × List Char) :=
    match afterSign with
    | '0' :: rest => some (['0'], rest)
    | c :: _ =>
      if '1' ≤ c ∧ c ≤ '9' then
        some (afterSign.takeWhile pyDigit, afterSign.dropWhile pyDigit)
      else none
    | [] => none
  match intPart with
  | none => none
  | some (ip, rest1) =>
    let fracPart : List Char × List Char :=
      match rest1 with
      | '.' :: d :: rest2 =>
        if pyDigit d then
          ('.' :: (d :: rest2).takeWhile pyDigit, (d :: rest2).dropWhile pyDigit)
        else ([], rest1)
      | _ => ([], rest1)
    let rest2 := fracPart.2
    let expPart : List Char × List Char :=
      match rest2 with
      | e :: rest3 =>
        if e = 'e' ∨ e = 'E' then
          match rest3 with
          | s2 :: rest4 =>
            if s2 = '+' ∨ s2 = '-' then
              match rest4 with
              | d :: _ => if pyDigit d then
                  (e :: s2 :: rest4.takeWhile pyDigit, rest4.dropWhile pyDigit)
                else ([], rest2)
              | [] => ([], rest2)
            else if pyDigit s2 then
              (e :: rest3.takeWhile pyDigit, rest3.dropWhile pyDigit)
            else ([], rest2)
          | [] => ([], rest2)
        else ([], rest2)
      | [] => ([], rest2)
    some (sign.1 ++ ip ++ fracPart.1 ++ expPart.1, expPart.2)

/-- Expects a literal word at the head of the input. -/
def expectWord : List Char → List Char → Option (List Char)
  | [], s => some s
  | c :: ws, s =>
    match s with
    | [] => none
    | c2 :: s2 => if c2 = c then expectWord ws s2 else none

/-- One insertion into a JSON-valued Python `dict` (association list with
unique keys): an existing key is updated in place, a new key is appended. -/
def assocInsert (d : List (String × Json)) (key : String) (v : Json) :
    List (String × Json) :=
  match d with
  | [] => [(key, v)]
  | (k0, v0) :: rest =>
    if k0 = key then (key, v) :: rest else (k0, v0) :: assocInsert rest key v

/-- Lookup in a JSON-valued Python `dict`. -/
def assocFind (d : List (String × Json)) (key : String) : Option Json :=
  match d with
  | [] => none
  | (k0, v0) :: rest => if k0 = key then some v0 else assocFind rest key

mutual

/-- A recursive-descent JSON parser, the model of Python `json.load`:
returns `none` exactly when the module would raise `JSONDecodeError`. -/
def parseJsonValue : Nat → List Char → Option (Json × List Char)
  | 0, _ => none
  | fuel + 1, s =>
    let s := s.dropWhile jsonWs
    match s with
    | [] => none
    | c :: cs =>
      if c = 'n' then
        match expectWord ['u', 'l', 'l'] cs with
        | some rest => some (Json.null, rest)
        | none => none
      else if c = 't' then
        match expectWord ['r', 'u', 'e'] cs with
        | some rest => some (Json.bool true, rest)
        | none => none
      else if c = 'f' then
        match expectWord ['a', 'l', 's', 'e'] cs with
        | some rest => some (Json.bool false, rest)
        | none => none
      else if c = '"' then
        match parseJsonString (cs.length + 1) cs with
        | some (body, rest) => some (Json.str (String.mk body), rest)
        | none => none
      else if c = '[' then
        parseJsonArrayRest fuel (cs.dropWhile jsonWs) []
      else if c = '\x7b' then
        parseJsonObjectRest fuel (cs.dropWhile jsonWs) []
      else
        match scanJsonNumber (c :: cs) with
        | some (lexeme, rest) => some (Json.num (String.mk lexeme), rest)
        | none => none
termination_by structural fuel _ => fuel

/-- Parses the rest of a JSON array (after `[` or after a comma). -/
def parseJsonArrayRest : Nat → List Char → List Json → Option (Json × List Char)
  | 0, _, _ => none
  | _ + 1, [], _ => none
  | fuel + 1, c :: cs, acc =>
    if c = ']' ∧ acc.isEmpty then some (Json.arr [], cs)
    else
      match parseJsonValue fuel (c :: cs) with
      | none => none
      | some (v, rest) =>
        match rest.dropWhile jsonWs with
        | ',' :: rest2 => parseJsonArrayRest fuel (rest2.dropWhile jsonWs) (acc ++ [v])
        | ']' :: rest2 => some (Json.arr (acc ++ [v]), rest2)
        | _ => none
termination_by structural fuel _ _ => fuel

/-- Parses the rest of a JSON object (after the opening brace or a comma). -/
def parseJsonObjectRest : Nat → List Char → List (String × Json) →
    Option (Json × List Char)
  | 0, _, _ => none
  | _ + 1, [], _ => none
  | fuel + 1, c :: cs, acc =>
    if c = '\x7d' ∧ acc.isEmpty then some (Json.obj [], cs)
    else if c = '"' then
      match parseJsonString (cs.length + 1) cs with
      | none => none
      | some (keyBody, rest) =>
        match rest.dropWhile jsonWs with
        | ':' :: rest2 =>
          match parseJsonValue fuel rest2 with
          | none => none
          | some (v, rest3) =>
            match rest3.dropWhile jsonWs with
            | ',' :: rest4 =>
              parseJsonObjectRest fuel (rest4.dropWhile jsonWs)
                (assocInsert acc (String.mk keyBody) v)
            | '\x7d' :: rest4 =>
              some (Json.obj (assocInsert acc (String.mk keyBody) v), rest4)
            | _ => none
        | _ => none
    else none
termination_by structural fuel _ _ => fuel

end

/-- Python `json.loads` on a whole document: the parsed value with only
trailing whitespace allowed, `none` on any syntax error. -/
def json_loads (s : String) : Option Json :=
  match parseJsonValue (s.data.length + 1) s.data with
  | some (v, rest) => if rest.dropWhile jsonWs = [] then some v else none
  | none => none

/-- Lowercase hex digit, for `json.dumps` unicode escapes. -/
def hexDigitChar (n : Nat) : Char :=
  if n < 10 then Char.ofNat ('0'.toNat + n) else Char.ofNat ('a'.toNat + n - 10)

/-- Four hex digits of a code unit. -/
def hex4 (n : Nat) : List Char :=
  [hexDigitChar (n / 4096 % 16), hexDigitChar (n / 256 % 16),
   hexDigitChar (n / 16 % 16), hexDigitChar (n % 16)]

/-- The `\uXXXX` escape `json.dumps` emits for a character outside
`0x20`–`0x7e`, as a surrogate pair beyond the basic plane. -/
def uEscape (n : Nat) : List Char :=
  if n < 65536 then '\\' :: 'u' :: hex4 n
  else
    ('\\' :: 'u' :: hex4 (55296 + (n - 65536) / 1024)) ++
    ('\\' :: 'u' :: hex4 (56320 + (n - 65536) % 1024))

/-- Escaping of one character inside a JSON string literal as `json.dumps`
does with the default `ensure_ascii=True`: printable ASCII other than the
quote and backslash is kept, the common control characters use their short
escapes, everything else becomes `\uXXXX`. -/
def jsonEscapeChar (c : Char) : List Char :=
  if c = '"' then ['\\', '"']
  else if c = '\\' then ['\\', '\\']
  else if c = '\n' then ['\\', 'n']
  else if c = '\r' then ['\\', 'r']
  else if c = '\t' then ['\\', 't']
  else if c = '\x08' then ['\\', 'b']
  else if c = '\x0c' then ['\\', 'f']
  else if c.toNat < 32 ∨ 126 < c.toNat then uEscape c.toNat
  else [c]

/-- A JSON string literal as rendered by `json.dumps`. -/
def jsonDumpsString (s : String) : String :=
  "\"" ++ String.mk ((s.data.map jsonEscapeChar).flatten) ++ "\""

/-- Indentation prefix at nesting level `lvl` for `json.dumps(x, indent=2)`. -/
def indentStr (lvl : Nat) : String :=
  String.mk (List.replicate (2 * lvl) ' ')

mutual

/-- Python `json.dumps(x, indent=2)` of one value at nesting level `lvl`:
scalars are rendered inline, non-empty containers open on their own line
with two more spaces of indentation per level and `", "`-free separators
(`",\n"` between elements, `": "` after keys). -/
def jsonDumpsLevel : Json → Nat → String
  | Json.null, _ => "null"
  | Json.bool true, _ => "true"
  | Json.bool false, _ => "false"
  | Json.num raw, _ => raw
  | Json.str s, _ => jsonDumpsString s
  | Json.arr [], _ => "[]"
  | Json.arr (x :: xs), lvl =>
    "[\n" ++ jsonDumpsItems (x :: xs) (lvl + 1) ++ "\n" ++ indentStr lvl ++ "]"
  | Json.obj [], _ => "\x7b\x7d"
  | Json.obj (f :: fs), lvl =>
    "\x7b\n" ++ jsonDumpsFields (f :: fs) (lvl + 1) ++ "\n" ++ indentStr lvl ++ "\x7d"

/-- Array elements of `json.dumps(x, indent=2)`, joined by `",\n"`. -/
def jsonDumpsItems : List Json → Nat → String
  | [], _ => ""
  | [x], lvl => indentStr lvl ++ jsonDumpsLevel x lvl
  | x :: y :: xs, lvl =>
    indentStr lvl ++ jsonDumpsLevel x lvl ++ ",\n" ++ jsonDumpsItems (y :: xs) lvl

/-- Object members of `json.dumps(x, indent=2)`, joined by `",\n"`. -/
def jsonDumpsFields : List (String × Json) → Nat → String
  | [], _ => ""
  | [(k, v)], lvl => indentStr lvl ++ jsonDumpsString k ++ ": " ++ jsonDumpsLevel v lvl
  | (k, v) :: g :: fs, lvl =>
    indentStr lvl ++ jsonDumpsString k ++ ": " ++ jsonDumpsLevel v lvl ++ ",\n" ++
      jsonDumpsFields (g :: fs) lvl

end

/-- Python `json.dumps(checklist, indent=2)` as used in the prompts. -/
def jsonDumps (j : Json) : String :=
  jsonDumpsLevel j 0

/-- Text of the prompt f-string up to the interpolated
`json.dumps(checklist, indent=2)` (identical in `review_item_definition`
and `generate_individual_review`). -/
def promptHeader : String :=
  "\nYou are a Functional Safety expert reviewing an Item Definition according to ISO 26262 Part 3.\n\nUse the following checklist to evaluate the provided Item Definition:\n"

/-- Text of the prompt f-string between the interpolated checklist and the
interpolated document content (which is wrapped in literal double quotes). -/
def promptMiddle : String :=
  "\n\nHere is the actual Item Definition content:\n\n\""

/-- Text of the prompt f-string after the interpolated document content,
as it appears in `generate_individual_review`; `review_item_definition`
has one more trailing newline. -/
def promptTail : String :=
  "\"\n\nFor each checklist item, determine if it was met. Output the results in a markdown-style table format with columns:\n- ID\n- Requirement\n- Description\n- Status (Pass / Fail / Not Applicable)\n- Comment\n\nBe specific about what evidence supports your conclusion — refer to sections or descriptions in the Item Definition.\n\n"

/-- The LLM prompt built by `generate_individual_review` in
`tool_review.py`: the f-string interpolates the dumped checklist and the
extracted file content verbatim. -/
def generate_individual_review_prompt (checklist : Json) (content : String) : String :=
  promptHeader ++ jsonDumps checklist ++ promptMiddle ++ content ++ promptTail

/-- The LLM prompt built by `review_item_definition` in `tool_review.py`:
identical to the batch variant except for a trailing newline. -/
def review_item_definition_prompt (checklist : Json) (item_definition : String) : String :=
  promptHeader ++ jsonDumps checklist ++ promptMiddle ++ item_definition ++ promptTail ++ "\n"

/-- `paragraph.add_run(text)` inside `set_cell_text` requires a string
argument; a non-string checklist field value raises `TypeError`. -/
def asStr : Json → Option String
  | Json.str s => some s
  | _ => none

/-- `checklist_item.get(key, dflt)` composed with the string requirement of
the document cell it is written into: `some dflt` when the key is absent,
the string value when present, `none` when the present value is not a
string (the library call then raises) or the receiver is not a dict. -/
def jsonGetStrD (j : Json) (key dflt : String) : Option String :=
  match j with
  | Json.obj fields =>
    match assocFind fields key with
    | some v => asStr v
    | none => some dflt
  | _ => none

/-- `item["id"]` as used by the dict comprehension
`checklist_map = {item["id"]: item for item in checklist_items}` (both in
`create_review_package` and in the hook): the item must be an object with
an `"id"` key; id values are strings in this data model. -/
def itemId : Json → Option String
  | Json.obj fields =>
    match assocFind fields "id" with
    | some (Json.str s) => some s
    | _ => none
  | _ => none

/-- The id-to-item map built left to right from the items list with Python
dict insertion semantics, starting from `acc`. -/
def buildChecklistMapFrom (acc : List (String × Json)) :
    List Json → Option (List (String × Json))
  | [] => some acc
  | it :: rest =>
    match itemId it with
    | none => none
    | some s => buildChecklistMapFrom (assocInsert acc s it) rest

/-- `checklist_map = {item["id"]: item for item in checklist_items}`:
`none` models the `TypeError`/`KeyError` raised when an item is not an
object carrying an id. -/
def buildChecklistMap (items : List Json) : Option (List (String × Json)) :=
  buildChecklistMapFrom [] items

/-- `checklist.get("items", [])` followed by iterating the result: the
value must be a list (iterating another value either raises directly or
yields elements without an id, which raise at `item["id"]`); a missing key
yields the empty list. -/
def checklistItemsOf : Json → Option (List Json)
  | Json.obj fields =>
    match assocFind fields "items" with
    | some (Json.arr l) => some l
    | some _ => none
    | none => some []
  | _ => none

/-- One block of the generated Word document: a heading with its level, a
five-row two-column item table, a category explanation paragraph, or the
empty spacing paragraph added after each table. -/
inductive DocxBlock where
  | heading (text : String) (level : Nat) : DocxBlock
  | table (rows : List (String × String)) : DocxBlock
  | explanation (text : String) : DocxBlock
  | spacer : DocxBlock
deriving DecidableEq

/-- The category and five-row item table produced for one parsed review
row, shared verbatim by `create_review_package` (tool_review.py) and the
docx loop of `before_cat_sends_message` (hook_export.py): the checklist
item is `checklist_map.get(item_id, {})` and the cells fall back to
`"Uncategorized"` / `""` / `"N/A"` / `"N/A"` / `"Not Reviewed"` / `""`. -/
def docxRowOf (cmap : List (String × Json)) (item : List (String × String)) :
    Option (String × DocxBlock) :=
  let item_id := pyDictGet item "ID" ""
  let checklist_item := (assocFind cmap item_id).getD (Json.obj [])
  match jsonGetStrD checklist_item "category" "Uncategorized",
        jsonGetStrD checklist_item "requirement" "",
        jsonGetStrD checklist_item "description" "N/A",
        jsonGetStrD checklist_item "iso_clause" "N/A" with
  | some category, some requirement, some description, some iso_clause =>
    some (category, DocxBlock.table
      [("Requirement", requirement), ("Description", description),
       ("ISO Clause", iso_clause), ("Result", pyDictGet item "Status" "Not Reviewed"),
       ("Comment", pyDictGet item "Comment" "")])
  | _, _, _, _ => none

/-- The grouped docx body loop of `create_review_package`: a level-3
category heading whenever `current_category` changes, then the item table
and a spacing paragraph. -/
def docxRowsLoop (cmap : List (String × Json)) :
    List (List (String × String)) → Option String → Option (List DocxBlock)
  | [], _ => some []
  | item :: rest, cur =>
    match docxRowOf cmap item with
    | none => none
    | some (category, tbl) =>
      let heads := if cur = some category then [] else [DocxBlock.heading category 3]
      match docxRowsLoop cmap rest (some category) with
      | none => none
      | some blocks => some (heads ++ tbl :: DocxBlock.spacer :: blocks)

/-- One CSV data row of `create_review_package`: note the `Status` default
here is `""`, not the `"Not Reviewed"` used for the docx cell, and the
requirement default is `""`. -/
def csvRowOf (cmap : List (String × Json)) (item : List (String × String)) :
    Option (List String) :=
  let item_id := pyDictGet item "ID" ""
  let status := pyDictGet item "Status" ""
  let comment := pyDictGet item "Comment" ""
  let checklist_item := (assocFind cmap item_id).getD (Json.obj [])
  match jsonGetStrD checklist_item "requirement" "",
        jsonGetStrD checklist_item "iso_clause" "N/A",
        jsonGetStrD checklist_item "description" "N/A" with
  | some full_requirement, some iso_clause, some description =>
    some [item_id, full_requirement, description, iso_clause, status, comment]
  | _, _, _ => none

/-- One CSV data row of the hook `before_cat_sends_message`: identical to
the tool variant except that a missing checklist requirement falls back to
the row's own `Requirement` cell rather than `""`. -/
def hookCsvRow (cmap : List (String × Json)) (item : List (String × String)) :
    Option (List String) :=
  let item_id := pyDictGet item "ID" ""
  let req := pyDictGet item "Requirement" ""
  let status := pyDictGet item "Status" ""
  let comment := pyDictGet item "Comment" ""
  let checklist_item := (assocFind cmap item_id).getD (Json.obj [])
  match jsonGetStrD checklist_item "requirement" req,
        jsonGetStrD checklist_item "iso_clause" "N/A",
        jsonGetStrD checklist_item "description" "N/A" with
  | some full_requirement, some iso_clause, some description =>
    some [item_id, full_requirement, description, iso_clause, status, comment]
  | _, _, _ => none

/-- The fixed CSV header row. -/
def csvHeader : List String :=
  ["ID", "Requirement", "Description", "Clause", "Status", "Comment"]

/-- Quoting decision of `csv.writer` (excel dialect, `QUOTE_MINIMAL`) with
delimiter `;`. -/
def csvQuoteNeeded (s : String) : Bool :=
  s.data.contains ';' || s.data.contains '"' || s.data.contains '\r' ||
    s.data.contains '\n'

/-- One CSV field as written by `csv.writer` with delimiter `;`. -/
def csvField (s : String) : String :=
  if csvQuoteNeeded s then
    "\"" ++ String.mk ((s.data.map fun c =>
      if c = '"' then ['"', '"'] else [c]).flatten) ++ "\""
  else s

/-- One CSV line: `;`-separated fields with the writer's default `"\r\n"`
terminator. -/
def csvLine (row : List String) : String :=
  String.intercalate ";" (row.map csvField) ++ "\r\n"

/-- The CSV text accumulated in the `StringIO` buffer. -/
def csvContentOf (rows : List (List String)) : String :=
  String.join (rows.map csvLine)

/-- Python `str.lower()` on the ASCII range. -/
def strLower (s : String) : String :=
  String.mk (s.data.map Char.toLower)

/-- `os.path.splitext` on a plain file name: the extension starts at the
last dot, with leading dots of the name never counting as an extension. -/
def splitext (name : String) : String × String :=
  let cs := name.data
  let lead := cs.takeWhile (fun c => c = '.')
  let rest := cs.dropWhile (fun c => c = '.')
  if rest.contains '.' then
    let extLen := (rest.reverse.takeWhile (fun c => c ≠ '.')).length + 1
    (String.mk (lead ++ rest.take (rest.length - extLen)),
     String.mk (rest.drop (rest.length - extLen)))
  else (name, "")

/-- `os.path.basename` of a path with `/` separators. -/
def basename (p : String) : String :=
  String.mk ((p.data.reverse.takeWhile (fun c => c ≠ '/')).reverse)

/-- The result of `create_review_package`: the path of the ZIP written
under `exports`, the docx blocks added to the document, and the CSV text,
all packed into the archive. -/
structure ReviewPackage where
  zipPath : String
  docxBlocks : List DocxBlock
  csvContent : String
deriving DecidableEq

/-- `create_review_package(original_filename, review_result, checklist,
plugin_folder)` from `tool_review.py`. The timestamp string built from
`datetime.now` is passed as a parameter; `None` is returned when the
parsed review data is empty or the surrounding `try` catches an exception
raised while building the report. -/
def create_review_package (original_filename review_result : String)
    (checklist : Json) (plugin_folder timestamp : String) : Option ReviewPackage :=
  let review_data := parse_markdown_table review_result
  if review_data.isEmpty then none
  else
    let base_name := (splitext original_filename).1
    match checklistItemsOf checklist with
    | none => none
    | some checklist_items =>
      match buildChecklistMap checklist_items with
      | none => none
      | some checklist_map =>
        match docxRowsLoop checklist_map review_data none with
        | none => none
        | some rowBlocks =>
          match List.mapM (csvRowOf checklist_map) review_data with
          | none => none
          | some rows =>
            some ⟨plugin_folder ++ "/exports/" ++ base_name ++ "_review_" ++
                    timestamp ++ ".zip",
                  DocxBlock.heading "ISO 26262 Part 3 - Item Definition Review Report" 1 ::
                    DocxBlock.heading ("File: " ++ original_filename) 2 :: rowBlocks,
                  csvContentOf (csvHeader :: rows)⟩

/-- A Python exception escaping or propagating through the modeled code. -/
inductive PyExc where
  | fileNotFound (msg : String) : PyExc
  | jsonDecode (msg : String) : PyExc
  | typeError (msg : String) : PyExc
deriving DecidableEq

/-- Path of the checklist file inside the plugin folder. -/
def checklist_path (plugin_folder : String) : String :=
  plugin_folder ++ "/checklists/item_definition_checklist.json"

/-- The environment of `review_item_definitions_batch`: the file system
under the plugin folder, the text extraction libraries (an oracle from
file name to extracted text: `extract_file_content` returns `""` on an
internal extraction error), the checklist file content if present, the
LLM, and the timestamp drawn inside `create_review_package`. -/
structure BatchEnv where
  plugin_folder : String
  item_definitions_exists : Bool
  listdir : List String
  isFile : String → Bool
  fileContent : String → String
  checklist_file : Option String
  llm : String → String
  timestamp : String

/-- `load_checklist` from `tool_review.py`: a missing file is caught and
re-raised as `FileNotFoundError` with a descriptive message; a JSON syntax
error is not caught there, so `json.load` raises `JSONDecodeError` (its
message text is abstracted to a fixed string). -/
def load_checklist (env : BatchEnv) : Except PyExc Json :=
  match env.checklist_file with
  | none =>
    Except.error (PyExc.fileNotFound
      ("Checklist file not found at " ++ checklist_path env.plugin_folder))
  | some text =>
    match json_loads text with
    | some j => Except.ok j
    | none => Except.error (PyExc.jsonDecode "Invalid JSON")

/-- The supported extensions of the batch tool. -/
def supported_extensions : List String := [".pdf", ".docx", ".txt"]

/-- The `files_to_process` scan of the batch tool: regular files of the
listing whose lowercased extension is supported, paired with that
extension. -/
def files_to_process (env : BatchEnv) : List (String × String) :=
  env.listdir.filterMap fun name =>
    if env.isFile name then
      let ext := (splitext (strLower name)).2
      if supported_extensions.contains ext then some (name, ext) else none
    else none

/-- The body of the per-file loop of the batch tool for one file: skips the
file when its extracted content strips to empty or the package creation
fails (the `try` around the body turns any error into a skip), otherwise
yields the file name and the created ZIP path. -/
def processFile (env : BatchEnv) (checklist : Json) (name : String) :
    Option (String × String) :=
  let content := env.fileContent name
  if (stripChars content.data).isEmpty then none
  else
    let review_result := env.llm (generate_individual_review_prompt checklist content)
    match create_review_package name review_result checklist env.plugin_folder
        env.timestamp with
    | none => none
    | some pkg => some (name, pkg.zipPath)

/-- The summary string returned by the batch tool after the loop. -/
def batchSummary (plugin_folder : String) (processed : List (String × String)) :
    String :=
  if processed.isEmpty then
    "❌ No files were successfully processed. Please check the files and try again."
  else
    "✅ Successfully processed " ++ toString processed.length ++ " file(s):\n\n" ++
    String.join (processed.map fun p => "• " ++ p.1 ++ " → " ++ basename p.2 ++ "\n") ++
    "\n📁 All ZIP files saved in: " ++ plugin_folder ++ "/exports" ++ "\n" ++
    "\nEach ZIP contains:\n• .csv file (Excel-compatible review data)\n• .docx file (Formatted review report)"

/-- `review_item_definitions_batch` from `tool_review.py`. Only
`FileNotFoundError` from `load_checklist` is caught and turned into a
returned message; any other exception there escapes the tool. -/
def review_item_definitions_batch (env : BatchEnv) : Except PyExc String :=
  if env.item_definitions_exists = false then
    Except.ok "❌ Error: item_definitions folder not found."
  else
    let files := files_to_process env
    if files.isEmpty then
      Except.ok "❌ No supported files found in item_definitions folder. Supported formats: .pdf, .docx, .txt"
    else
      match load_checklist env with
      | Except.error (PyExc.fileNotFound m) =>
        Except.ok ("❌ Error loading checklist: " ++ m)
      | Except.error e => Except.error e
      | Except.ok checklist =>
        Except.ok (batchSummary env.plugin_folder
          (files.filterMap fun fe => processFile env checklist fe.1))

/-- The `explanations` dict of `add_section_explanation` in
`hook_export.py`, accessed with `.get(category)`. -/
def section_explanation (category : String) : Option String :=
  if category = "Identification and Classification" then
    some "This section ensures that the item is uniquely identified within the system architecture or documentation and properly classified (e.g., as hardware, software, or a system function). This supports traceability from high-level safety goals down to detailed design elements. Clear identification also enables effective configuration management and version control throughout the development lifecycle. It is a foundational element for ensuring structured functional safety development."
  else if category = "Functional Description" then
    some "This section describes the expected behavior of the item under all operating conditions, including normal, degraded, and fault modes. It includes definitions of interfaces, timing constraints, and performance requirements. A well-defined functional description is essential for identifying potential failure scenarios and serves as input to hazard analysis. It helps ensure that all relevant behaviors are considered when deriving safety requirements."
  else if category = "Safety-Related Attributes" then
    some "This section captures key safety-related properties such as safety goals, mitigation strategies, diagnostic coverage, and safe state definitions. These attributes are derived from the Hazard Analysis and Risk Assessment (HARA) and form the basis of the functional safety concept. They guide the implementation of safety mechanisms and define how the item contributes to overall system safety. Proper documentation ensures alignment with ISO 26262 expectations for safety integrity."
  else if category = "Dependencies and Interactions" then
    some "This section identifies internal and external dependencies, including interactions with other systems, environmental influences, and user inputs. Understanding these relationships is critical for defining correct assumptions and boundary conditions during development. It also supports the identification of potential interference or integration risks that could impact safety. Accurate documentation ensures robust interface management and system integration."
  else if category = "System Boundaries and Context" then
    some "This section defines the physical and logical boundaries of the item, along with environmental conditions and design constraints. It clarifies where the item operates and under what limitations, such as temperature, vibration, or EMC exposure. These details ensure that the item is developed and validated under realistic assumptions. Defining this context early supports the creation of accurate test plans and operational profiles."
  else if category = "Review and Approval" then
    some "This section confirms that a formal review process was followed and that all necessary approvals were obtained before finalizing the item definition. It verifies that review minutes, action items, and change records are documented and closed. Configuration management practices should also be applied to maintain document integrity. This ensures process compliance and provides an auditable trail for quality assurance and functional safety governance."
  else none

/-- The docx body loop of the hook: a level-2 category heading together
with the `add_section_explanation` paragraph whenever the persistent
`last_category` function attribute differs (a missing attribute counts as
different), then the shared item table and a spacing paragraph; the final
attribute value is returned alongside the blocks. A non-string cell value
raises `TypeError`, which nothing in the hook catches. -/
def hookDocxLoop (cmap : List (String × Json)) :
    List (List (String × String)) → Option String →
    Except PyExc (List DocxBlock × Option String)
  | [], last => Except.ok ([], last)
  | item :: rest, last =>
    match docxRowOf cmap item with
    | none => Except.error (PyExc.typeError "expected a string cell value")
    | some (category, tbl) =>
      let heads : List DocxBlock :=
        if last = some category then []
        else
          DocxBlock.heading category 2 ::
            (match section_explanation category with
             | some e => [DocxBlock.explanation e]
             | none => [])
      match hookDocxLoop cmap rest (some category) with
      | Except.error e => Except.error e
      | Except.ok (blocks, last2) =>
        Except.ok (heads ++ tbl :: DocxBlock.spacer :: blocks, last2)

/-- A value of the `final_output` dict: the message content string or the
attached downloadable file dict `\x7b"name": ..., "content": ..., "type": ...\x7d`
(the base64-encoded ZIP bytes are represented by the structured payload
they encode). -/
inductive OutVal where
  | str (s : String) : OutVal
  | file (name : String) (docx : List DocxBlock) (csv : String) (ftype : String) : OutVal
deriving DecidableEq

/-- Lookup in the `final_output` dict. -/
def outGet (fo : List (String × OutVal)) (key : String) : Option OutVal :=
  match fo with
  | [] => none
  | (k0, v0) :: rest => if k0 = key then some v0 else outGet rest key

/-- Assignment `final_output[key] = v` with Python dict semantics. -/
def outInsert (fo : List (String × OutVal)) (key : String) (v : OutVal) :
    List (String × OutVal) :=
  match fo with
  | [] => [(key, v)]
  | (k0, v0) :: rest =>
    if k0 = key then (key, v) :: rest else (k0, v0) :: outInsert rest key v

/-- The guard `"|" in final_output.get("content", "")`: a missing key tests
the empty string, and when the value is the attached-file dict the `in`
operator tests its keys (`name`, `content`, `type`), none of which
contains a pipe. -/
def hookHasPipe (fo : List (String × OutVal)) : Bool :=
  match outGet fo "content" with
  | some (OutVal.str s) => s.data.contains '|'
  | _ => false

/-- `final_output["content"]` inside the pipe branch, where the guard has
established a string value. -/
def hookContentStr (fo : List (String × OutVal)) : String :=
  match outGet fo "content" with
  | some (OutVal.str s) => s
  | _ => ""

/-- The result of one hook invocation: the returned `final_output`, the
new value of the persistent `last_category` attribute, and the list of ZIP
files written under `exports` with their contents. -/
structure HookResult where
  final_output : List (String × OutVal)
  last_category : Option String
  writes : List (String × List DocxBlock × String)
deriving DecidableEq

/-- `load_checklist` from `hook_export.py`: both a missing file and a JSON
syntax error are caught and re-raised with enriched messages. -/
def load_checklist_hook (checklist_file : Option String) (plugin_folder : String) :
    Except PyExc Json :=
  match checklist_file with
  | none =>
    Except.error (PyExc.fileNotFound
      ("Checklist file not found at " ++ checklist_path plugin_folder))
  | some text =>
    match json_loads text with
    | some j => Except.ok j
    | none => Except.error (PyExc.jsonDecode "Invalid JSON in checklist file")

/-- `before_cat_sends_message` from `hook_export.py`, over the checklist
file content, the plugin folder, the timestamp drawn from `datetime.now`,
the incoming `final_output` dict and the current `last_category`
attribute. Without a pipe in the content the dict is returned untouched;
otherwise the checklist is loaded (exceptions propagate out of the hook),
the content is parsed, docx blocks and CSV text are built, the ZIP is
written under `exports`, and the content is replaced by the confirmation
message with the ZIP attached under `"file"`. -/
def before_cat_sends_message (checklist_file : Option String)
    (plugin_folder timestamp : String) (fo : List (String × OutVal))
    (last : Option String) : Except PyExc HookResult :=
  if hookHasPipe fo then
    match load_checklist_hook checklist_file plugin_folder with
    | Except.error e => Except.error e
    | Except.ok checklist =>
      match checklistItemsOf checklist with
      | none => Except.error (PyExc.typeError "checklist items are not a list")
      | some checklist_items =>
        match buildChecklistMap checklist_items with
        | none => Except.error (PyExc.typeError "checklist item without an id")
        | some checklist_map =>
          let review_data := parse_markdown_table (hookContentStr fo)
          match hookDocxLoop checklist_map review_data last with
          | Except.error e => Except.error e
          | Except.ok (rowBlocks, last2) =>
            match List.mapM (hookCsvRow checklist_map) review_data with
            | none => Except.error (PyExc.typeError "expected a string cell value")
            | some rows =>
              let blocks :=
                DocxBlock.heading "ISO 26262 Part 3 - Item Definition Review Report" 1 ::
                  rowBlocks
              let csv := csvContentOf (csvHeader :: rows)
              let zipName := "item_definition_review_" ++ timestamp ++ ".zip"
              let zipPath := plugin_folder ++ "/exports/" ++ zipName
              let fo2 := outInsert fo "file" (OutVal.file zipName blocks csv "zip")
              let fo3 := outInsert fo2 "content" (OutVal.str
                "✅ Review completed and exported.\nSee attached `.zip` file containing:\n- `item_definition_review.docx`\n- `item_definition_review.csv`")
              Except.ok ⟨fo3, last2, [(zipPath, blocks, csv)]⟩
  else
    Except.ok ⟨fo, last, []⟩

/-- A 12,001-character document text, one character past the limit the
specification names. -/
def bigContent : String :=
  String.mk (List.replicate 12001 'a')

/-- A one-item checklist whose only id is `REQ-001`. -/
def c6Checklist : Json :=
  Json.obj [("items", Json.arr [Json.obj
    [("id", Json.str "REQ-001"),
     ("category", Json.str "Functional Description"),
     ("requirement", Json.str "Shall define the item"),
     ("description", Json.str "Desc"),
     ("iso_clause", Json.str "3.5")]])]

/-- A review table whose single data row carries an id absent from
`c6Checklist`. -/
def c6Review : String :=
  "| ID | Status | Comment |\n|---|---|---|\n| ZZZ-9 | Pass | ok |"

/-- A batch environment whose checklist file holds syntactically invalid
JSON (a lone opening brace). -/
def c7Env : BatchEnv :=
  ⟨"/plug", true, ["doc1.txt"], fun _ => true, fun _ => "content",
   some "\x7b", fun _ => "", "ts"⟩

/-- A batch environment with no checklist file at all. -/
def c7bEnv : BatchEnv :=
  ⟨"/plug", true, ["doc1.txt"], fun _ => true, fun _ => "content",
   none, fun _ => "", "ts"⟩

/-- First of two checklist items sharing the id `DUP`. -/
def c8Item1 : Json :=
  Json.obj [("id", Json.str "DUP"), ("requirement", Json.str "first")]

/-- Second of two checklist items sharing the id `DUP`. -/
def c8Item2 : Json :=
  Json.obj [("id", Json.str "DUP"), ("requirement", Json.str "second")]

/-- An items list with a duplicated id. -/
def c8Items : List Json := [c8Item1, c8Item2]


end ItemDefReview

namespace ItemDefReview

theorem mChar_eq_some {c : Char} {s : List Char} {k : MatchK} {r : List Char}
    (h : mChar c s k = some r) : ∃ t, s = c :: t ∧ k t = some r := by
  cases s with
  | nil => simp [mChar] at h
  | cons x xs =>
    by_cases hx : x = c
    · subst hx
      exact ⟨xs, rfl, by simpa [mChar] using h⟩
    · simp [mChar, hx] at h

theorem mClass_eq_some {p : Char → Bool} {s : List Char} {k : MatchK} {r : List Char}
    (h : mClass p s k = some r) : ∃ x t, s = x :: t ∧ p x = true ∧ k t = some r := by
  cases s with
  | nil => simp [mClass] at h
  | cons x xs =>
    by_cases hx : p x
    · exact ⟨x, xs, rfl, hx, by simpa [mClass, hx] using h⟩
    · simp [mClass, hx] at h

theorem tryDrops_eq_some {k : MatchK} {s : List Char} {r : List Char} :
    ∀ {n : Nat}, tryDrops k s n = some r → ∃ m, m ≤ n ∧ k (s.drop m) = some r := by
  intro n
  induction n with
  | zero =>
    intro h
    exact ⟨0, Nat.le_refl 0, by simpa [tryDrops] using h⟩
  | succ n ih =>
    intro h
    rw [tryDrops] at h
    cases hk : k (s.drop (n + 1)) with
    | some r2 =>
      rw [hk] at h
      cases h
      exact ⟨n + 1, Nat.le_refl _, hk⟩
    | none =>
      rw [hk] at h
      obtain ⟨m, hm, hkm⟩ := ih h
      exact ⟨m, Nat.le_succ_of_le hm, hkm⟩

theorem take_all_of_le_takeWhile {p : Char → Bool} :
    ∀ (s : List Char) (m : Nat), m ≤ (s.takeWhile p).length → (s.take m).all p = true := by
  intro s
  induction s with
  | nil => intro m _; simp
  | cons c cs ih =>
    intro m hm
    by_cases hc : p c
    · cases m with
      | zero => simp
      | succ m =>
        rw [List.takeWhile_cons_of_pos hc] at hm
        simp only [List.length_cons, Nat.succ_le_succ_iff] at hm
        simp [hc, ih m hm]
    · rw [List.takeWhile_cons_of_neg hc] at hm
      simp only [List.length_nil, Nat.le_zero] at hm
      subst hm
      simp

theorem mClassStar_eq_some {p : Char → Bool} {s : List Char} {k : MatchK} {r : List Char}
    (h : mClassStar p s k = some r) :
    ∃ m, (s.take m).all p = true ∧ k (s.drop m) = some r := by
  obtain ⟨m, hm, hk⟩ := tryDrops_eq_some (by simpa [mClassStar] using h)
  exact ⟨m, take_all_of_le_takeWhile s m hm, hk⟩

theorem sepRunB_append {d : List Char} {c : Char} (v : List Char)
    (hd : d.all dashColon = true) (hc : dashPipe c = true) :
    sepRunB (d ++ c :: v) = true := by
  induction d with
  | nil => simp [sepRunB, hc]
  | cons a d ih =>
    simp only [List.all_cons, Bool.and_eq_true] at hd
    simp [sepRunB, ih hd.2, hd.1]

theorem hasSepLike_append_left {t : List Char} (pre : List Char)
    (h : hasSepLike t = true) : hasSepLike (pre ++ t) = true := by
  induction pre with
  | nil => simpa
  | cons a pre ih => simp [hasSepLike, ih]

theorem hasSepLike_of_suffix {t s : List Char} (hsub : t <:+ s)
    (h : hasSepLike t = true) : hasSepLike s = true := by
  obtain ⟨pre, rfl⟩ := hsub
  exact hasSepLike_append_left pre h

theorem hasSepLike_of_match {s : List Char} {fuel : Nat} {k : MatchK} {r : List Char}
    (h : tablePattern fuel s k = some r) : hasSepLike s = true := by
  unfold tablePattern mSeq at h
  obtain ⟨s1, rfl, h⟩ := mChar_eq_some h
  obtain ⟨m1, -, h⟩ := mClassStar_eq_some h
  unfold hdrEnd mSeq at h
  obtain ⟨s2, he2, h⟩ := mChar_eq_some h
  obtain ⟨m2, -, h⟩ := mClassStar_eq_some h
  unfold sepPart mSeq at h
  obtain ⟨s3, he3, h⟩ := mChar_eq_some h
  obtain ⟨m3, hall, h⟩ := mClassStar_eq_some h
  obtain ⟨c, s4, he4, hc, -⟩ := mClass_eq_some h
  have hsuffix : ('|' :: s3) <:+ ('|' :: s1) := by
    calc ('|' :: s3) <:+ s2.drop m2 := by rw [he3]
      _ <:+ s2 := List.drop_suffix m2 s2
      _ <:+ '|' :: s2 := List.suffix_cons '|' s2
      _ <:+ s1.drop m1 := by rw [he2]
      _ <:+ s1 := List.drop_suffix m1 s1
      _ <:+ '|' :: s1 := List.suffix_cons '|' s1
  refine hasSepLike_of_suffix hsuffix ?_
  have hs3 : s3 = s3.take m3 ++ c :: s4 := by
    conv_lhs => rw [← List.take_append_drop m3 s3]
    rw [he4]
  rw [hs3]
  simp [hasSepLike, sepRunB_append s4 hall hc]

theorem matchHere_eq_none_of_no_sepLike {s : List Char} (h : hasSepLike s = false) :
    matchHere s = none := by
  unfold matchHere
  cases heq : tablePattern s.length s (fun rest => some rest) with
  | none => rfl
  | some r => exact absurd (hasSepLike_of_match heq) (by simp [h])

theorem scanFuel_succ (f : Nat) (s : List Char) :
    scanFuel (f + 1) s =
      match matchHere s with
      | some 0 => match s with | [] => [[]] | _ :: xs => [] :: scanFuel f xs
      | some (c + 1) => s.take (c + 1) :: scanFuel f (s.drop (c + 1))
      | none => match s with | [] => [] | _ :: xs => scanFuel f xs := rfl

theorem scanFuel_eq_nil_of_no_sepLike {s : List Char} (h : hasSepLike s = false) :
    ∀ f, scanFuel f s = [] := by
  intro f
  induction f generalizing s with
  | zero => rfl
  | succ f ih =>
    rw [scanFuel_succ, matchHere_eq_none_of_no_sepLike h]
    cases s with
    | nil => rfl
    | cons c cs =>
      refine ih ?_
      rw [hasSepLike] at h
      simp only [Bool.or_eq_false_iff] at h
      exact h.2

theorem pyDictInsert_append {d : List (String × String)} {key : String} (v : String)
    (h : ∀ p ∈ d, p.1 ≠ key) : pyDictInsert d key v = d ++ [(key, v)] := by
  induction d with
  | nil => rfl
  | cons p d ih =>
    have hp : p.1 ≠ key := h p (List.mem_cons_self p d)
    cases p with
    | mk k0 v0 =>
      simp only [pyDictInsert]
      rw [if_neg hp]
      simp [ih fun q hq => h q (List.mem_cons_of_mem _ hq)]

theorem foldl_pyDictInsert_append (l : List (String × String)) :
    ∀ acc : List (String × String),
      (l.map Prod.fst).Nodup → (∀ p ∈ acc, ∀ q ∈ l, p.1 ≠ q.1) →
      List.foldl (fun d kv => pyDictInsert d kv.1 kv.2) acc l = acc ++ l := by
  induction l with
  | nil => intro acc _ _; simp
  | cons kv l ih =>
    intro acc hnd hdisj
    simp only [List.foldl_cons]
    have hins : pyDictInsert acc kv.1 kv.2 = acc ++ [(kv.1, kv.2)] :=
      pyDictInsert_append kv.2 fun p hp => hdisj p hp kv (List.mem_cons_self kv l)
    rw [hins]
    simp only [List.map_cons, List.nodup_cons] at hnd
    rw [ih (acc ++ [(kv.1, kv.2)]) hnd.2 ?_]
    · simp
    · intro p hp q hq
      rcases List.mem_append.mp hp with hpa | hpk
      · exact hdisj p hpa q (List.mem_cons_of_mem _ hq)
      · simp only [List.mem_singleton] at hpk
        subst hpk
        intro hcontra
        exact hnd.1 (hcontra ▸ List.mem_map_of_mem Prod.fst hq)

theorem pyDictOfPairs_eq_self {l : List (String × String)}
    (h : (l.map Prod.fst).Nodup) : pyDictOfPairs l = l := by
  unfold pyDictOfPairs
  rw [foldl_pyDictInsert_append l [] h (by intro p hp; simp at hp)]
  simp

theorem pyDictFind_eq_none_iff {d : List (String × String)} {key : String} :
    pyDictFind d key = none ↔ ∀ p ∈ d, p.1 ≠ key := by
  induction d with
  | nil => simp [pyDictFind]
  | cons p d ih =>
    cases p with
    | mk k0 v0 =>
      by_cases hk : k0 = key
      · subst hk
        simp [pyDictFind]
      · simp [pyDictFind, hk, ih]

theorem pyDictFind_get_of_nodup {d : List (String × String)}
    (hnd : (d.map Prod.fst).Nodup) (i : Nat) (h : i < d.length) :
    pyDictFind d (d.get ⟨i, h⟩).1 = some (d.get ⟨i, h⟩).2 := by
  induction d generalizing i with
  | nil => simp at h
  | cons p d ih =>
    simp only [List.map_cons, List.nodup_cons] at hnd
    cases i with
    | zero =>
      cases p with
      | mk k0 v0 => simp [pyDictFind]
    | succ i =>
      cases p with
      | mk k0 v0 =>
        have hlt : i < d.length := Nat.lt_of_succ_lt_succ h
        have hne : k0 ≠ (d.get ⟨i, hlt⟩).1 := by
          intro hcontra
          apply hnd.1
          rw [hcontra]
          exact List.mem_map.mpr ⟨d.get ⟨i, hlt⟩, List.get_mem d i hlt, rfl⟩
        have ihh := ih hnd.2 i hlt
        simp only [List.get_eq_getElem] at hne ihh ⊢
        simp only [List.getElem_cons_succ]
        simp only [pyDictFind]
        rw [if_neg hne]
        exact ihh

theorem map_fst_zip_take {α β : Type} :
    ∀ (l1 : List α) (l2 : List β), (l1.zip l2).map Prod.fst = l1.take l2.length := by
  intro l1
  induction l1 with
  | nil => intro l2; simp
  | cons a l1 ih =>
    intro l2
    cases l2 with
    | nil => simp
    | cons b l2 => simp [ih l2]

theorem map_snd_zip_take {α β : Type} :
    ∀ (l1 : List α) (l2 : List β), (l1.zip l2).map Prod.snd = l2.take l1.length := by
  intro l1
  induction l1 with
  | nil => intro l2; simp
  | cons a l1 ih =>
    intro l2
    cases l2 with
    | nil => simp
    | cons b l2 => simp [ih l2]

theorem not_mem_take_of_nodup {l : List String} (hnd : l.Nodup) (i n : Nat)
    (h1 : i < l.length) (h2 : n ≤ i) : l.get ⟨i, h1⟩ ∉ l.take n := by
  intro hmem
  obtain ⟨j, hj, hget⟩ := List.getElem_of_mem hmem
  rw [List.getElem_take] at hget
  have hjn : j < n := Nat.lt_of_lt_of_le hj (by simp [Nat.min_le_left, List.length_take])
  have hji : j < l.length := by
    have := List.length_take n l ▸ hj
    omega
  have : j = i := by
    have hinj : l[j] = l[i] ↔ j = i := List.Nodup.getElem_inj_iff hnd
    simp only [List.get_eq_getElem] at hget
    exact hinj.mp hget
  omega

/-- Claim C4: the data-row loop body.  A row whose stripped cells are all
empty yields no record; otherwise the record is `dict(zip(headers, cells))`:
keys are the headers truncated to the number of cells (a shorter row leaves
trailing headers unset, a longer row drops excess cells), and under distinct
headers the i-th header maps to the i-th cell. -/
theorem C4_row_semantics (headers : List String) (line : List Char)
    (hnd : headers.Nodup) :
    (rowRecord headers line = none ↔ ((rowCells line).all fun c => c = "") = true) ∧
    ∀ r, rowRecord headers line = some r →
      r = headers.zip (rowCells line) ∧
      r.map Prod.fst = headers.take (rowCells line).length ∧
      r.map Prod.snd = (rowCells line).take headers.length ∧
      (∀ i, ∀ h1 : i < headers.length, ∀ h2 : i < (rowCells line).length,
        pyDictFind r (headers.get ⟨i, h1⟩) = some ((rowCells line).get ⟨i, h2⟩)) ∧
      (∀ i, ∀ h1 : i < headers.length, (rowCells line).length ≤ i →
        pyDictFind r (headers.get ⟨i, h1⟩) = none) := by
  have hkeys : (headers.zip (rowCells line)).map Prod.fst
      = headers.take (rowCells line).length := map_fst_zip_take headers (rowCells line)
  have hknd : ((headers.zip (rowCells line)).map Prod.fst).Nodup := by
    rw [hkeys]
    exact (List.take_sublist _ _).nodup hnd
  have hrec : pyDictOfPairs (headers.zip (rowCells line)) = headers.zip (rowCells line) :=
    pyDictOfPairs_eq_self hknd
  constructor
  · by_cases hany : ((rowCells line).any fun c => c ≠ "") = true
    · simp only [rowRecord, hany, if_true]
      constructor
      · intro h; cases h
      · intro hall
        simp only [List.any_eq_true, ne_eq, List.all_eq_true] at hany hall
        obtain ⟨c, hc, hcne⟩ := hany
        exact absurd (hall c hc) (by simpa using hcne)
    · simp only [rowRecord, hany, if_false]
      constructor
      · intro _
        simp only [List.any_eq_true, ne_eq, not_exists, not_and, not_not] at hany
        simp only [List.all_eq_true]
        intro c hc
        simpa using hany c hc
      · intro _; rfl
  · intro r hr
    by_cases hany : ((rowCells line).any fun c => c ≠ "") = true
    · simp only [rowRecord, hany, if_true, Option.some.injEq] at hr
      subst hr
      rw [hrec]
      refine ⟨rfl, hkeys, map_snd_zip_take headers (rowCells line), ?_, ?_⟩
      · intro i h1 h2
        have hzl : i < (headers.zip (rowCells line)).length := by
          rw [List.length_zip]
          omega
        have := pyDictFind_get_of_nodup hknd i hzl
        simpa [List.get_eq_getElem, List.getElem_zip] using this
      · intro i h1 hle
        rw [pyDictFind_eq_none_iff]
        intro p hp hcontra
        have hp1 : p.1 ∈ (headers.zip (rowCells line)).map Prod.fst :=
          List.mem_map.mpr ⟨p, hp, rfl⟩
        rw [hkeys, hcontra] at hp1
        exact not_mem_take_of_nodup hnd i (rowCells line).length h1 hle hp1
    · simp only [rowRecord, hany, if_false] at hr
      cases hr

theorem C4_row_semantics_witness :
    pyDictFind [("A", "1")] "C" = none := by
  have h := (C4_row_semantics ["A", "B", "C"] ("| 1 |".data) (by decide)).2
  have hr := h [("A", "1")] (by decide)
  have := hr.2.2.2.2 2 (by decide) (by decide)
  simpa using this

/-- Claim C2 counterexample: the text `|a|b|` / `||` / `|x|y|` has no line
whose content between pipes consists of dashes/colons with at least one
dash or colon, yet the parser returns a record, because the `[-|]` class of
the separator part of the regex also accepts a bare pipe, so the line `||`
acts as a separator row. -/
theorem C2_counterexample :
    noSeparatorRow ("|a|b|
||
|x|y|".data) = true ∧
    parse_markdown_table "|a|b|
||
|x|y|" = [[("a", "x"), ("b", "y")]] ∧
    parse_markdown_table "|a|b|
||
|x|y|" ≠ [] :=
  ⟨by decide, by decide, by decide⟩

/-- Claim C2 (amended): for every input text containing no occurrence of a
pipe followed by a possibly empty run of dashes/colons followed by a dash or
a pipe (the `\|[-:]*[-|]` anchor of the regex — this also excludes adjacent
pipes and pipe-dash pairs), `parse_markdown_table` returns the empty list,
even if the text contains pipe-delimited lines. -/
theorem C2_amended_no_anchor_no_records (text : String)
    (h : hasSepLike text.data = false) : parse_markdown_table text = [] := by
  unfold parse_markdown_table parseTablesAux
  rw [scanFuel_eq_nil_of_no_sepLike h]
  rfl

theorem C2_amended_witness : parse_markdown_table "|a|b|
|x|y|" = [] :=
  C2_amended_no_anchor_no_records "|a|b|
|x|y|" (by decide)

end ItemDefReview

namespace ItemDefReview

theorem mChar_cons_self (c : Char) (t : List Char) (k : MatchK) :
    mChar c (c :: t) k = k t := by
  simp [mChar]

theorem mChar_none_of_head_ne {c x : Char} (h : x ≠ c) (xs : List Char) (k : MatchK) :
    mChar c (x :: xs) k = none := by
  simp [mChar, h]

theorem pipeFree_drop {s : List Char} (hs : PipeFree s) (n : Nat) : PipeFree (s.drop n) :=
  fun hmem => hs (List.drop_subset n s hmem)

theorem mChar_pipeFree_drop {b : List Char} (hb : PipeFree b) (j : Nat) (k : MatchK) :
    mChar '|' (b.drop j) k = none := by
  cases hd : b.drop j with
  | nil => rfl
  | cons c t =>
    have hc : c ∈ b := List.drop_subset j b (hd ▸ List.mem_cons_self c t)
    refine mChar_none_of_head_ne (fun he => hb ?_) t k
    rw [← he]
    exact hc

theorem tryDrops_none_of_all {k : MatchK} {s : List Char} :
    ∀ {n : Nat}, (∀ j, j ≤ n → k (s.drop j) = none) → tryDrops k s n = none := by
  intro n
  induction n with
  | zero =>
    intro h
    simpa [tryDrops] using h 0 (Nat.le_refl 0)
  | succ n ih =>
    intro h
    rw [tryDrops, h (n + 1) (Nat.le_refl _)]
    exact ih fun j hj => h j (Nat.le_succ_of_le hj)

theorem tryDrops_congr_below {k : MatchK} {s : List Char} {a : Nat} :
    ∀ {n : Nat}, a ≤ n → (∀ j, a < j → j ≤ n → k (s.drop j) = none) →
    tryDrops k s n = tryDrops k s a := by
  intro n
  induction n with
  | zero =>
    intro ha _
    cases Nat.le_zero.mp ha
    rfl
  | succ n ih =>
    intro ha hfail
    rcases Nat.lt_or_ge a (n + 1) with hlt | hge
    · rw [tryDrops, hfail (n + 1) hlt (Nat.le_refl _)]
      exact ih (Nat.lt_succ_iff.mp hlt) fun j hj1 hj2 => hfail j hj1 (Nat.le_succ_of_le hj2)
    · cases Nat.le_antisymm ha hge
      rfl

theorem tryDrops_hit {k : MatchK} {s : List Char} {n : Nat} {r : List Char}
    (h : k (s.drop n) = some r) : tryDrops k s n = some r := by
  cases n with
  | zero => simpa [tryDrops] using h
  | succ n => rw [tryDrops, h]

theorem mStarFuel_succ (m : Matcher) (f : Nat) (s : List Char) (k : MatchK) :
    mStarFuel m (f + 1) s k =
      match m s (fun t => if t.length < s.length then mStarFuel m f t k else none) with
      | some r => some r
      | none => k s := rfl

theorem mStarFuel_rowGroup_pipeFree {s : List Char} (hs : PipeFree s) (f : Nat) (k : MatchK) :
    mStarFuel rowGroup f s k = k s := by
  cases f with
  | zero => rfl
  | succ f =>
    rw [mStarFuel_succ]
    have hnone :
        rowGroup s (fun t => if t.length < s.length then mStarFuel rowGroup f t k else none)
          = none := by
      unfold rowGroup mSeq
      simpa using mChar_pipeFree_drop hs 0 _
    rw [hnone]

theorem takeWhile_anyChar (s : List Char) : s.takeWhile anyChar = s := by
  induction s with
  | nil => rfl
  | cons c cs ih => simp [List.takeWhile_cons, anyChar, ih]

theorem absorb_spaceDigit {s : List Char} (hs : PipeFree s) (fuel : Nat) :
    mClassStar spaceDigit s (fun t => mStarFuel rowGroup fuel t (fun rest => some rest))
      = some (s.drop (s.takeWhile spaceDigit).length) := by
  unfold mClassStar
  apply tryDrops_hit
  rw [mStarFuel_rowGroup_pipeFree (pipeFree_drop hs _) fuel]

theorem anyStar_last_pipe (body P2 : List Char) (hP : PipeFree P2) (fuel : Nat) :
    mClassStar anyChar (body ++ '|' :: P2)
      (fun u => mChar '|' u (fun v => mClassStar spaceDigit v
        (fun t => mStarFuel rowGroup fuel t (fun rest => some rest))))
      = some (P2.drop (P2.takeWhile spaceDigit).length) := by
  unfold mClassStar
  rw [takeWhile_anyChar]
  have hlen : (body ++ '|' :: P2).length = body.length + 1 + P2.length := by
    simp
    omega
  rw [hlen]
  rw [@tryDrops_congr_below _ _ body.length _ (by omega) ?_]
  · apply tryDrops_hit
    have hdrop : (body ++ '|' :: P2).drop body.length = '|' :: P2 := by
      rw [List.drop_append_eq_append_drop]
      simp
    rw [hdrop, mChar_cons_self]
    exact absorb_spaceDigit hP fuel
  · intro j hj1 hj2
    have hdrop : (body ++ '|' :: P2).drop j = P2.drop (j - (body.length + 1)) := by
      have : body ++ '|' :: P2 = (body ++ ['|']) ++ P2 := by simp
      rw [this, List.drop_append_eq_append_drop]
      have hlen2 : (body ++ ['|']).length = body.length + 1 := by simp
      rw [List.drop_eq_nil_iff.mpr (by omega), hlen2]
      simp
    rw [hdrop]
    exact mChar_pipeFree_drop hP _ _

end ItemDefReview

namespace ItemDefReview

theorem hdrEnd_nil (fuel : Nat) (k : MatchK) : hdrEnd fuel [] k = none := rfl

theorem mClass_cons (p : Char → Bool) (c : Char) (t : List Char) (k : MatchK) :
    mClass p (c :: t) k = if p c then k t else none := rfl

theorem hdrEnd_fail_head {c : Char} (hc : c ≠ '|') (t : List Char) (fuel : Nat) (k : MatchK) :
    hdrEnd fuel (c :: t) k = none := by
  simp [hdrEnd, mSeq, mChar, hc]

theorem hdrEnd_fail_one {c : Char} (hc : pySpace c = false) (hc2 : c ≠ '|')
    (t : List Char) (fuel : Nat) (k : MatchK) :
    hdrEnd fuel ('|' :: c :: t) k = none := by
  simp [hdrEnd, sepPart, mSeq, mClassStar, tryDrops, mChar, List.takeWhile_cons, hc, hc2]

theorem hdrEnd_fail_two {c : Char} (hc : pySpace c = false) (hc2 : c ≠ '|')
    (t : List Char) (fuel : Nat) (k : MatchK) :
    hdrEnd fuel ('|' :: ' ' :: c :: t) k = none := by
  have hsp : pySpace ' ' = true := by decide
  simp [hdrEnd, sepPart, mSeq, mClassStar, tryDrops, mChar, List.takeWhile_cons, hsp, hc, hc2]

theorem hdrEnd_fail_sep_gap {c : Char} (h1 : dashColon c = false) (h2 : dashPipe c = false)
    (t : List Char) (fuel : Nat) (k : MatchK) :
    hdrEnd fuel ('|' :: '\n' :: '|' :: c :: t) k = none := by
  have hnl : pySpace '\n' = true := by decide
  have hpp : pySpace '|' = false := by decide
  simp [hdrEnd, sepPart, mSeq, mClassStar, tryDrops, mChar, mClass,
    List.takeWhile_cons, hnl, hpp, h1, h2]

theorem hdrEnd_fail_pipeFree {t : List Char} (h : PipeFree t) (fuel : Nat) (k : MatchK) :
    hdrEnd fuel ('|' :: t) k = none := by
  unfold hdrEnd mSeq
  rw [mChar_cons_self]
  unfold mClassStar
  apply tryDrops_none_of_all
  intro j _
  unfold sepPart mSeq
  exact mChar_pipeFree_drop h j _

theorem sepPart_success (x y : Char) (P2 : List Char) (hP : PipeFree P2) (fuel : Nat) :
    sepPart fuel
      ('|' :: '-' :: '-' :: '-' :: '|' :: '-' :: '-' :: '-' :: '|' :: '\n' ::
        '|' :: ' ' :: x :: ' ' :: '|' :: ' ' :: y :: ' ' :: '|' :: P2)
      (fun rest => some rest)
      = some (P2.drop (P2.takeWhile spaceDigit).length) := by
  unfold sepPart mSeq
  rw [mChar_cons_self]
  have hrun : List.takeWhile dashColon
      ('-' :: '-' :: '-' :: '|' :: '-' :: '-' :: '-' :: '|' :: '\n' ::
        '|' :: ' ' :: x :: ' ' :: '|' :: ' ' :: y :: ' ' :: '|' :: P2)
      = ['-', '-', '-'] := by
    simp [List.takeWhile_cons, dashColon]
  unfold mClassStar
  rw [hrun]
  show tryDrops _ _ 3 = _
  rw [tryDrops]
  have h3 : (mClass dashPipe
      (('-' :: '-' :: '-' :: '|' :: '-' :: '-' :: '-' :: '|' :: '\n' ::
        '|' :: ' ' :: x :: ' ' :: '|' :: ' ' :: y :: ' ' :: '|' :: P2).drop 3)
      fun v => afterSep fuel v fun rest => some rest) = none := by
    simp only [List.drop_succ_cons, List.drop_zero]
    simp [mClass, afterSep, mSeq, mClassStar, tryDrops, rowGroup, mChar,
      List.takeWhile_cons, pySpace, dashPipe]
  rw [h3, tryDrops]
  have h2 : (mClass dashPipe
      (('-' :: '-' :: '-' :: '|' :: '-' :: '-' :: '-' :: '|' :: '\n' ::
        '|' :: ' ' :: x :: ' ' :: '|' :: ' ' :: y :: ' ' :: '|' :: P2).drop 2)
      fun v => afterSep fuel v fun rest => some rest)
      = some (P2.drop (P2.takeWhile spaceDigit).length) := by
    simp only [List.drop_succ_cons, List.drop_zero]
    have hdp : dashPipe '-' = true := by decide
    rw [mClass_cons, if_pos hdp]
    unfold afterSep mSeq
    have hws : List.takeWhile pySpace
        ('|' :: '-' :: '-' :: '-' :: '|' :: '\n' ::
          '|' :: ' ' :: x :: ' ' :: '|' :: ' ' :: y :: ' ' :: '|' :: P2) = [] := by
      simp [List.takeWhile_cons, pySpace]
    unfold mClassStar
    rw [hws]
    show tryDrops _ _ 0 = _
    unfold tryDrops
    unfold rowGroup mSeq
    rw [mChar_cons_self]
    have hbody : ('-' :: '-' :: '-' :: '|' :: '\n' ::
        '|' :: ' ' :: x :: ' ' :: '|' :: ' ' :: y :: ' ' :: '|' :: P2)
      = (['-', '-', '-', '|', '\n', '|', ' ', x, ' ', '|', ' ', y, ' '] ++ '|' :: P2) := by
      simp
    rw [hbody]
    exact anyStar_last_pipe _ P2 hP fuel
  rw [h2]

end ItemDefReview

namespace ItemDefReview

theorem hdrEnd_success (x y : Char) (P2 : List Char) (hP : PipeFree P2) (fuel : Nat) :
    hdrEnd fuel
      ('|' :: '\n' :: '|' :: '-' :: '-' :: '-' :: '|' :: '-' :: '-' :: '-' :: '|' :: '\n' ::
        '|' :: ' ' :: x :: ' ' :: '|' :: ' ' :: y :: ' ' :: '|' :: P2)
      (fun rest => some rest)
      = some (P2.drop (P2.takeWhile spaceDigit).length) := by
  unfold hdrEnd mSeq
  rw [mChar_cons_self]
  have hrun : List.takeWhile pySpace
      ('\n' :: '|' :: '-' :: '-' :: '-' :: '|' :: '-' :: '-' :: '-' :: '|' :: '\n' ::
        '|' :: ' ' :: x :: ' ' :: '|' :: ' ' :: y :: ' ' :: '|' :: P2) = ['\n'] := by
    simp [List.takeWhile_cons, pySpace]
  unfold mClassStar
  rw [hrun]
  show tryDrops _ _ 1 = _
  rw [tryDrops]
  have h1 : (sepPart fuel
      (('\n' :: '|' :: '-' :: '-' :: '-' :: '|' :: '-' :: '-' :: '-' :: '|' :: '\n' ::
        '|' :: ' ' :: x :: ' ' :: '|' :: ' ' :: y :: ' ' :: '|' :: P2).drop 1)
      fun rest => some rest) = some (P2.drop (P2.takeWhile spaceDigit).length) := by
    simp only [List.drop_succ_cons, List.drop_zero]
    exact sepPart_success x y P2 hP fuel
  rw [h1]

theorem hdrEnd_fail_pipeFree_drop {b : List Char} (hb : PipeFree b) (j fuel : Nat) (k : MatchK) :
    hdrEnd fuel (b.drop j) k = none := by
  unfold hdrEnd mSeq
  exact mChar_pipeFree_drop hb j _

theorem hdrEnd_fail_table_drop (a b x y : Char)
    (hx1 : pySpace x = false) (hx2 : x ≠ '|') (hy1 : pySpace y = false) (hy2 : y ≠ '|')
    {P2 : List Char} (hP : PipeFree P2) (fuel : Nat) (k : MatchK) :
    ∀ j, 9 ≤ j → j ≤ 28 → hdrEnd fuel ((tableOf a b x y ++ P2).drop j) k = none := by
  intro j h9 h28
  have hW : tableOf a b x y ++ P2
      = '|' :: ' ' :: a :: ' ' :: '|' :: ' ' :: b :: ' ' :: '|' :: '\n' ::
        '|' :: '-' :: '-' :: '-' :: '|' :: '-' :: '-' :: '-' :: '|' :: '\n' ::
        '|' :: ' ' :: x :: ' ' :: '|' :: ' ' :: y :: ' ' :: '|' :: P2 := by
    simp [tableOf]
  rw [hW]
  interval_cases j <;> simp only [List.drop_succ_cons, List.drop_zero] <;>
    first
      | exact hdrEnd_fail_head (by decide) _ fuel k
      | exact hdrEnd_fail_head hx2 _ fuel k
      | exact hdrEnd_fail_head hy2 _ fuel k
      | exact hdrEnd_fail_one (by decide) (by decide) _ fuel k
      | exact hdrEnd_fail_two hx1 hx2 _ fuel k
      | exact hdrEnd_fail_two hy1 hy2 _ fuel k
      | exact hdrEnd_fail_sep_gap (by decide) (by decide) _ fuel k
      | exact hdrEnd_fail_pipeFree hP fuel k

end ItemDefReview

namespace ItemDefReview

theorem tablePattern_table (a b x y : Char)
    (hx1 : pySpace x = false) (hx2 : x ≠ '|') (hy1 : pySpace y = false) (hy2 : y ≠ '|')
    {P2 : List Char} (hP : PipeFree P2) (fuel : Nat) :
    tablePattern fuel (tableOf a b x y ++ P2) (fun rest => some rest)
      = some (P2.drop (P2.takeWhile spaceDigit).length) := by
  unfold tablePattern mSeq
  have hsplit : tableOf a b x y ++ P2 = '|' :: ((tableOf a b x y ++ P2).drop 1) := by
    simp [tableOf]
  rw [hsplit, mChar_cons_self]
  unfold mClassStar
  rw [takeWhile_anyChar]
  have hlen : ((tableOf a b x y ++ P2).drop 1).length = 28 + P2.length := by
    simp [tableOf]
    omega
  rw [hlen]
  rw [@tryDrops_congr_below _ _ 7 _ (by omega) ?_]
  · apply tryDrops_hit
    have hdrop : ((tableOf a b x y ++ P2).drop 1).drop 7 = (tableOf a b x y ++ P2).drop 8 := by
      rw [List.drop_drop]
    rw [hdrop]
    have hdrop8 : (tableOf a b x y ++ P2).drop 8
        = '|' :: '\n' :: '|' :: '-' :: '-' :: '-' :: '|' :: '-' :: '-' :: '-' :: '|' :: '\n' ::
          '|' :: ' ' :: x :: ' ' :: '|' :: ' ' :: y :: ' ' :: '|' :: P2 := by
      simp [tableOf]
    rw [hdrop8]
    exact hdrEnd_success x y P2 hP fuel
  · intro j hj7 hjle
    have hdropj : ((tableOf a b x y ++ P2).drop 1).drop j = (tableOf a b x y ++ P2).drop (j + 1) := by
      rw [List.drop_drop, Nat.add_comm 1 j]
    rw [hdropj]
    rcases Nat.lt_or_ge j 28 with hj28 | hj28
    · exact hdrEnd_fail_table_drop a b x y hx1 hx2 hy1 hy2 hP fuel _ (j + 1) (by omega) (by omega)
    · have hdropP : (tableOf a b x y ++ P2).drop (j + 1) = P2.drop (j + 1 - 29) := by
        rw [List.drop_append_eq_append_drop]
        have h29 : (tableOf a b x y).length = 29 := by simp [tableOf]
        rw [List.drop_eq_nil_iff.mpr (by omega), h29]
        simp
      rw [hdropP]
      exact hdrEnd_fail_pipeFree_drop hP _ fuel _

theorem matchHere_table (a b x y : Char)
    (hx1 : pySpace x = false) (hx2 : x ≠ '|') (hy1 : pySpace y = false) (hy2 : y ≠ '|')
    {P2 : List Char} (hP : PipeFree P2) :
    matchHere (tableOf a b x y ++ P2)
      = some (29 + (P2.takeWhile spaceDigit).length) := by
  unfold matchHere
  rw [tablePattern_table a b x y hx1 hx2 hy1 hy2 hP]
  have hlen : (tableOf a b x y ++ P2).length = 29 + P2.length := by
    simp [tableOf]
    omega
  have hrle : (P2.takeWhile spaceDigit).length ≤ P2.length :=
    List.Sublist.length_le (List.takeWhile_sublist spaceDigit)
  have hdlen : (P2.drop (P2.takeWhile spaceDigit).length).length
      = P2.length - (P2.takeWhile spaceDigit).length := by
    simp
  rw [hlen]
  show some (29 + P2.length - (P2.drop (P2.takeWhile spaceDigit).length).length)
      = some (29 + (P2.takeWhile spaceDigit).length)
  rw [hdlen]
  congr 1
  omega

end ItemDefReview

namespace ItemDefReview

theorem splitChar_ne_nil (sep : Char) (l : List Char) : splitChar sep l ≠ [] := by
  cases l with
  | nil => simp [splitChar]
  | cons c cs =>
    rw [splitChar]
    cases splitChar sep cs with
    | nil => simp
    | cons g gs =>
      by_cases hc : c = sep <;> simp [hc]

theorem splitChar_cons_eq (sep c : Char) (cs : List Char) {g : List Char} {gs : List (List Char)}
    (h : splitChar sep cs = g :: gs) :
    splitChar sep (c :: cs) = if c = sep then [] :: g :: gs else (c :: g) :: gs := by
  rw [splitChar, h]

theorem splitChar_sep_cons (sep : Char) (a b : List Char) (ha : sep ∉ a) :
    splitChar sep (a ++ sep :: b) = a :: splitChar sep b := by
  induction a with
  | nil =>
    simp only [List.nil_append]
    cases hb : splitChar sep b with
    | nil => exact absurd hb (splitChar_ne_nil sep b)
    | cons g gs =>
      rw [splitChar_cons_eq sep sep b hb]
      simp [hb]
  | cons c a ih =>
    have hc : c ≠ sep := fun he => ha (he ▸ List.mem_cons_self c a)
    have hrest := ih fun hm => ha (List.mem_cons_of_mem c hm)
    simp only [List.cons_append]
    cases hb : splitChar sep b with
    | nil => exact absurd hb (splitChar_ne_nil sep b)
    | cons g gs =>
      rw [hb] at hrest
      rw [splitChar_cons_eq sep c (a ++ sep :: b) hrest, if_neg hc]

theorem splitChar_noSep_append (sep : Char) (a b : List Char) {g : List Char}
    {gs : List (List Char)} (ha : sep ∉ a) (hb : splitChar sep b = g :: gs) :
    splitChar sep (a ++ b) = (a ++ g) :: gs := by
  induction a with
  | nil => simpa using hb
  | cons c a ih =>
    have hc : c ≠ sep := fun he => ha (he ▸ List.mem_cons_self c a)
    have hrest := ih fun hm => ha (List.mem_cons_of_mem c hm)
    simp only [List.cons_append]
    rw [splitChar_cons_eq sep c (a ++ b) hrest, if_neg hc]

theorem splitChar_no_sep (sep : Char) (l : List Char) (h : sep ∉ l) :
    splitChar sep l = [l] := by
  induction l with
  | nil => rfl
  | cons c cs ih =>
    have hc : c ≠ sep := fun he => h (he ▸ List.mem_cons_self c cs)
    have hrest := ih fun hm => h (List.mem_cons_of_mem c hm)
    rw [splitChar_cons_eq sep c cs hrest, if_neg hc]

theorem mem_of_mem_splitChar {sep : Char} {l piece : List Char} {c : Char}
    (hp : piece ∈ splitChar sep l) (hc : c ∈ piece) : c ∈ l := by
  induction l generalizing piece with
  | nil =>
    simp only [splitChar, List.mem_singleton] at hp
    subst hp
    cases hc
  | cons d cs ih =>
    cases hsp : splitChar sep cs with
    | nil => exact absurd hsp (splitChar_ne_nil sep cs)
    | cons g gs =>
      rw [splitChar_cons_eq sep d cs hsp] at hp
      by_cases hd : d = sep
      · rw [if_pos hd] at hp
        rcases List.mem_cons.mp hp with hpe | hpg
        · subst hpe; cases hc
        · exact List.mem_cons_of_mem d (ih (hsp ▸ hpg) hc)
      · rw [if_neg hd] at hp
        rcases List.mem_cons.mp hp with hpe | hpg
        · subst hpe
          rcases List.mem_cons.mp hc with hce | hcg
          · exact hce ▸ List.mem_cons_self d cs
          · exact List.mem_cons_of_mem d (ih (hsp ▸ List.mem_cons_self g gs) hcg)
        · exact List.mem_cons_of_mem d (ih (hsp ▸ List.mem_cons_of_mem g hpg) hc)

theorem dropWhile_append_of_fix {p : Char → Bool} (x : List Char) {y : List Char}
    (hy : y.dropWhile p = y) : (x ++ y).dropWhile p = x.dropWhile p ++ y := by
  induction x with
  | nil => simpa using hy
  | cons c xs ih =>
    by_cases hc : p c
    · simp only [List.cons_append, List.dropWhile_cons, hc, if_true]
      exact ih
    · simp only [List.cons_append, List.dropWhile_cons, hc]
      simp

theorem dropWhile_cons_of_neg_self {p : Char → Bool} {c : Char} (hc : p c = false)
    (t : List Char) : (c :: t).dropWhile p = c :: t := by
  simp [List.dropWhile_cons, hc]

theorem stripChars_bounded_append {c1 c2 : Char} (h1 : pySpace c1 = false)
    (h2 : pySpace c2 = false) (mid w : List Char) :
    stripChars ((c1 :: mid ++ [c2]) ++ w)
      = (c1 :: mid ++ [c2]) ++ (w.reverse.dropWhile pySpace).reverse := by
  unfold stripChars
  have hleft : ((c1 :: mid ++ [c2]) ++ w).dropWhile pySpace = (c1 :: mid ++ [c2]) ++ w := by
    simp only [List.cons_append, List.dropWhile_cons, h1]
    simp
  rw [hleft]
  have hrev : ((c1 :: mid ++ [c2]) ++ w).reverse
      = w.reverse ++ (c2 :: (mid.reverse ++ [c1])) := by
    simp
  rw [hrev]
  have hfix : (c2 :: (mid.reverse ++ [c1])).dropWhile pySpace = c2 :: (mid.reverse ++ [c1]) :=
    dropWhile_cons_of_neg_self h2 _
  rw [dropWhile_append_of_fix w.reverse hfix]
  simp

theorem pipeFree_of_sub {s t : List Char} (hsub : ∀ c, c ∈ t → c ∈ s) (hs : PipeFree s) :
    PipeFree t := fun hmem => hs (hsub '|' hmem)

theorem pipeFree_rstrip {w : List Char} (hw : PipeFree w) :
    PipeFree (w.reverse.dropWhile pySpace).reverse := by
  refine pipeFree_of_sub (fun c hc => ?_) hw
  rw [List.mem_reverse] at hc
  have : List.Sublist (w.reverse.dropWhile pySpace) w.reverse :=
    List.dropWhile_sublist _
  have hcm : c ∈ w.reverse := this.mem hc
  rwa [List.mem_reverse] at hcm

theorem pipeFree_take {w : List Char} (hw : PipeFree w) (n : Nat) : PipeFree (w.take n) :=
  pipeFree_of_sub (fun _ hc => (List.take_sublist n w).mem hc) hw

theorem rowRecord_pipeFree (headers : List String) {line : List Char} (h : PipeFree line) :
    rowRecord headers line = none := by
  unfold rowRecord rowCells innerCells
  rw [splitChar_no_sep '|' line h]
  simp

theorem foldl_rowRecord_none (headers : List String) :
    ∀ (rows : List (List Char)) (acc : List (List (String × String))),
      (∀ l ∈ rows, rowRecord headers l = none) →
      rows.foldl (fun acc2 line =>
        match rowRecord headers line with
        | some r => acc2 ++ [r]
        | none => acc2) acc = acc := by
  intro rows
  induction rows with
  | nil => intro acc _; rfl
  | cons l rows ih =>
    intro acc h
    simp only [List.foldl_cons]
    rw [h l (List.mem_cons_self l rows)]
    exact ih acc fun l2 hl2 => h l2 (List.mem_cons_of_mem l hl2)

end ItemDefReview

namespace ItemDefReview

theorem pipeFree_stripChars {l : List Char} (h : PipeFree l) : PipeFree (stripChars l) := by
  refine pipeFree_of_sub (fun c hc => ?_) h
  unfold stripChars at hc
  rw [List.mem_reverse] at hc
  have hc2 : c ∈ (l.dropWhile pySpace).reverse := (List.dropWhile_sublist pySpace).mem hc
  rw [List.mem_reverse] at hc2
  exact (List.dropWhile_sublist pySpace).mem hc2

theorem stripChars_space_mid (c : Char) (hc : pySpace c = false) :
    stripChars [' ', c, ' '] = [c] := by
  have hsp : pySpace ' ' = true := by decide
  simp [stripChars, List.dropWhile_cons, hsp, hc]

theorem rowCells_bounded (u v : Char) (hu2 : u ≠ '|') (hv2 : v ≠ '|') (tail : List Char)
    (htail : PipeFree tail) :
    rowCells (('|' :: ' ' :: u :: ' ' :: '|' :: ' ' :: v :: ' ' :: '|' :: []) ++ tail)
      = [String.mk (stripChars [' ', u, ' ']), String.mk (stripChars [' ', v, ' '])] := by
  have hs1 : ('|' :: ' ' :: u :: ' ' :: '|' :: ' ' :: v :: ' ' :: '|' :: []) ++ tail
      = [] ++ '|' :: ([' ', u, ' '] ++ '|' :: ([' ', v, ' '] ++ '|' :: tail)) := by
    simp
  have hnu : ('|' : Char) ∉ [' ', u, ' '] := by
    intro hm
    rcases List.mem_cons.mp hm with he | hm2
    · cases he
    rcases List.mem_cons.mp hm2 with he | hm3
    · exact hu2 he.symm
    rcases List.mem_cons.mp hm3 with he | hm4
    · cases he
    · cases hm4
  have hnv : ('|' : Char) ∉ [' ', v, ' '] := by
    intro hm
    rcases List.mem_cons.mp hm with he | hm2
    · cases he
    rcases List.mem_cons.mp hm2 with he | hm3
    · exact hv2 he.symm
    rcases List.mem_cons.mp hm3 with he | hm4
    · cases he
    · cases hm4
  have hsplit : splitChar '|' (('|' :: ' ' :: u :: ' ' :: '|' :: ' ' :: v :: ' ' :: '|' :: []) ++ tail)
      = [[], [' ', u, ' '], [' ', v, ' '], tail] := by
    rw [hs1]
    rw [splitChar_sep_cons '|' [] _ (by simp)]
    rw [splitChar_sep_cons '|' [' ', u, ' '] _ hnu]
    rw [splitChar_sep_cons '|' [' ', v, ' '] _ hnv]
    rw [splitChar_no_sep '|' tail htail]
  unfold rowCells innerCells
  rw [hsplit]
  simp [List.dropLast]

end ItemDefReview

namespace ItemDefReview

theorem processTable_table (a b x y : Char)
    (ha1 : pySpace a = false) (ha2 : a ≠ '|') (hb1 : pySpace b = false) (hb2 : b ≠ '|')
    (hx1 : pySpace x = false) (hx2 : x ≠ '|') (hy1 : pySpace y = false) (hy2 : y ≠ '|')
    (hab : a ≠ b) {w : List Char} (hw : PipeFree w) :
    processTable (tableOf a b x y ++ w)
      = [[(String.mk [a], String.mk [x]), (String.mk [b], String.mk [y])]] := by
  have hpipe : pySpace '|' = false := by decide
  -- Step 1: the `.strip()` of the matched block keeps the table and right-strips the tail.
  have htab : tableOf a b x y
      = '|' :: ([' ', a, ' ', '|', ' ', b, ' ', '|', '\n',
          '|', '-', '-', '-', '|', '-', '-', '-', '|', '\n',
          '|', ' ', x, ' ', '|', ' ', y, ' '] ++ ['|']) := by
    simp [tableOf]
  have hstrip : stripChars (tableOf a b x y ++ w)
      = tableOf a b x y ++ (w.reverse.dropWhile pySpace).reverse := by
    rw [htab]
    exact stripChars_bounded_append hpipe hpipe _ w
  set w2 : List Char := (w.reverse.dropWhile pySpace).reverse with hw2def
  have hw2 : PipeFree w2 := pipeFree_rstrip hw
  -- Step 2: the line split.
  obtain ⟨g, gs, hsplitw⟩ : ∃ g gs, splitChar '\n' w2 = g :: gs := by
    cases h : splitChar '\n' w2 with
    | nil => exact absurd h (splitChar_ne_nil '\n' w2)
    | cons g gs => exact ⟨g, gs, rfl⟩
  have hg : PipeFree g :=
    pipeFree_of_sub (fun c hc => mem_of_mem_splitChar (hsplitw ▸ List.mem_cons_self g gs) hc) hw2
  have hgs : ∀ piece ∈ gs, PipeFree piece := fun piece hp =>
    pipeFree_of_sub (fun c hc =>
      mem_of_mem_splitChar (hsplitw ▸ List.mem_cons_of_mem g hp) hc) hw2
  have hnl3 : ('\n' : Char) ∉ ['|', ' ', x, ' ', '|', ' ', y, ' ', '|'] := by
    intro hm
    simp only [List.mem_cons, List.not_mem_nil, or_false] at hm
    rcases hm with h | h | h | h | h | h | h | h | h <;>
      first
        | exact absurd h (by decide)
        | (subst h; exact absurd hx1 (by decide))
        | (subst h; exact absurd hy1 (by decide))
  have hnl2 : ('\n' : Char) ∉ ['|', '-', '-', '-', '|', '-', '-', '-', '|'] := by decide
  have hnl1 : ('\n' : Char) ∉ ['|', ' ', a, ' ', '|', ' ', b, ' ', '|'] := by
    intro hm
    simp only [List.mem_cons, List.not_mem_nil, or_false] at hm
    rcases hm with h | h | h | h | h | h | h | h | h <;>
      first
        | exact absurd h (by decide)
        | (subst h; exact absurd ha1 (by decide))
        | (subst h; exact absurd hb1 (by decide))
  have hshape : tableOf a b x y ++ w2
      = ['|', ' ', a, ' ', '|', ' ', b, ' ', '|'] ++ '\n' ::
          (['|', '-', '-', '-', '|', '-', '-', '-', '|'] ++ '\n' ::
            (['|', ' ', x, ' ', '|', ' ', y, ' ', '|'] ++ w2)) := by
    simp [tableOf]
  have hlines0 : splitChar '\n' (tableOf a b x y ++ w2)
      = ['|', ' ', a, ' ', '|', ' ', b, ' ', '|'] ::
          ['|', '-', '-', '-', '|', '-', '-', '-', '|'] ::
          (['|', ' ', x, ' ', '|', ' ', y, ' ', '|'] ++ g) :: gs := by
    rw [hshape]
    rw [splitChar_sep_cons '\n' _ _ hnl1]
    rw [splitChar_sep_cons '\n' _ _ hnl2]
    rw [splitChar_noSep_append '\n' _ _ hnl3 hsplitw]
  -- Step 3: per-line stripping.
  have hstrip1 : stripChars ['|', ' ', a, ' ', '|', ' ', b, ' ', '|']
      = ['|', ' ', a, ' ', '|', ' ', b, ' ', '|'] := by
    have := stripChars_bounded_append hpipe hpipe [' ', a, ' ', '|', ' ', b, ' '] []
    simpa using this
  have hstrip2 : stripChars ['|', '-', '-', '-', '|', '-', '-', '-', '|']
      = ['|', '-', '-', '-', '|', '-', '-', '-', '|'] := by decide
  have hstrip3 : stripChars (['|', ' ', x, ' ', '|', ' ', y, ' ', '|'] ++ g)
      = ['|', ' ', x, ' ', '|', ' ', y, ' ', '|'] ++ (g.reverse.dropWhile pySpace).reverse := by
    have := stripChars_bounded_append hpipe hpipe [' ', x, ' ', '|', ' ', y, ' '] g
    simpa using this
  set rg : List Char := (g.reverse.dropWhile pySpace).reverse with hrgdef
  have hrg : PipeFree rg := pipeFree_rstrip hg
  -- Step 4: assemble.
  unfold processTable
  rw [hstrip, hlines0]
  simp only [List.map_cons, hstrip1, hstrip2, hstrip3]
  have hheaders : rowCells ['|', ' ', a, ' ', '|', ' ', b, ' ', '|']
      = [String.mk [a], String.mk [b]] := by
    have := rowCells_bounded a b ha2 hb2 [] (by intro hm; cases hm)
    simp only [List.append_nil] at this
    rw [this, stripChars_space_mid a ha1, stripChars_space_mid b hb1]
  have hcells : rowCells (['|', ' ', x, ' ', '|', ' ', y, ' ', '|'] ++ rg)
      = [String.mk [x], String.mk [y]] := by
    have := rowCells_bounded x y hx2 hy2 rg hrg
    rw [this, stripChars_space_mid x hx1, stripChars_space_mid y hy1]
  have hxne : String.mk [x] ≠ "" := by
    intro h
    have : ([x] : List Char) = [] := congrArg String.data h
    cases this
  have habne : String.mk [a] ≠ String.mk [b] := by
    intro h
    have hl : ([a] : List Char) = [b] := congrArg String.data h
    exact hab (List.cons_eq_cons.mp hl).1
  have hrow : rowRecord [String.mk [a], String.mk [b]]
      (['|', ' ', x, ' ', '|', ' ', y, ' ', '|'] ++ rg)
      = some [(String.mk [a], String.mk [x]), (String.mk [b], String.mk [y])] := by
    unfold rowRecord
    rw [hcells]
    rw [if_pos (by simp [hxne])]
    simp only [List.zip_cons_cons, List.zip_nil_right]
    simp [pyDictOfPairs, pyDictInsert, habne]
  show (if (List.length (['|', '-', '-', '-', '|', '-', '-', '-', '|'] ::
      (['|', ' ', x, ' ', '|', ' ', y, ' ', '|'] ++ rg) :: gs.map stripChars) = 0) then
        ([] : List (List (String × String)))
      else _) = _
  rw [if_neg (by simp)]
  show List.foldl _ []
      (((['|', ' ', x, ' ', '|', ' ', y, ' ', '|'] ++ rg) :: gs.map stripChars).drop 0) = _
  simp only [List.drop_zero, List.foldl_cons]
  rw [hheaders, hrow]
  refine foldl_rowRecord_none _ _ _ ?_
  intro l hl
  obtain ⟨piece, hpiece, rfl⟩ := List.mem_map.mp hl
  exact rowRecord_pipeFree _ (pipeFree_stripChars (hgs piece hpiece))

end ItemDefReview

namespace ItemDefReview

theorem matchHere_cons_ne {c : Char} {t : List Char} (hc : c ≠ '|') :
    matchHere (c :: t) = none := by
  unfold matchHere
  have h : tablePattern (c :: t).length (c :: t) (fun rest => some rest) = none := by
    unfold tablePattern mSeq
    exact mChar_none_of_head_ne hc _ _
  rw [h]

theorem matchHere_pipeFree {s : List Char} (hs : PipeFree s) : matchHere s = none := by
  cases s with
  | nil => rfl
  | cons c t => exact matchHere_cons_ne fun he => hs (he ▸ List.mem_cons_self c t)

theorem scanFuel_pipeFree_nil {s : List Char} (hs : PipeFree s) :
    ∀ f, scanFuel f s = [] := by
  intro f
  induction f generalizing s with
  | zero => rfl
  | succ f ih =>
    rw [scanFuel_succ, matchHere_pipeFree hs]
    cases s with
    | nil => rfl
    | cons c t => exact ih fun hm => hs (List.mem_cons_of_mem c hm)

theorem scanFuel_append_pipeFree {P1 : List Char} (h1 : PipeFree P1) (f : Nat) (s : List Char) :
    scanFuel (P1.length + f) (P1 ++ s) = scanFuel f s := by
  induction P1 with
  | nil => simp
  | cons c p ih =>
    have hc : c ≠ '|' := fun he => h1 (he ▸ List.mem_cons_self c p)
    have hfuel : (c :: p).length + f = (p.length + f) + 1 := by
      simp
      omega
    rw [hfuel]
    show scanFuel ((p.length + f) + 1) (c :: (p ++ s)) = scanFuel f s
    rw [scanFuel_succ, matchHere_cons_ne hc]
    exact ih fun hm => h1 (List.mem_cons_of_mem c hm)

theorem take_takeWhile_length (p : Char → Bool) (l : List Char) :
    l.take (l.takeWhile p).length = l.takeWhile p := by
  induction l with
  | nil => rfl
  | cons c t ih =>
    by_cases hc : p c
    · simp [List.takeWhile_cons, hc, ih]
    · simp [List.takeWhile_cons, hc]

theorem scanFuel_table (a b x y : Char)
    (hx1 : pySpace x = false) (hx2 : x ≠ '|') (hy1 : pySpace y = false) (hy2 : y ≠ '|')
    {P2 : List Char} (hP : PipeFree P2) (f : Nat) :
    scanFuel (f + 1) (tableOf a b x y ++ P2)
      = [tableOf a b x y ++ P2.takeWhile spaceDigit] := by
  rw [scanFuel_succ, matchHere_table a b x y hx1 hx2 hy1 hy2 hP]
  have h29 : 29 + (P2.takeWhile spaceDigit).length
      = (28 + (P2.takeWhile spaceDigit).length) + 1 := by omega
  rw [h29]
  show (tableOf a b x y ++ P2).take ((28 + (P2.takeWhile spaceDigit).length) + 1) ::
      scanFuel f ((tableOf a b x y ++ P2).drop ((28 + (P2.takeWhile spaceDigit).length) + 1))
      = [tableOf a b x y ++ P2.takeWhile spaceDigit]
  have hlen29 : (tableOf a b x y).length = 29 := by simp [tableOf]
  have htake : (tableOf a b x y ++ P2).take ((28 + (P2.takeWhile spaceDigit).length) + 1)
      = tableOf a b x y ++ P2.takeWhile spaceDigit := by
    rw [List.take_append_eq_append_take, hlen29]
    have h1 : (tableOf a b x y).take (28 + (P2.takeWhile spaceDigit).length + 1)
        = tableOf a b x y := List.take_of_length_le (by rw [hlen29]; omega)
    rw [h1]
    have h2 : 28 + (P2.takeWhile spaceDigit).length + 1 - 29
        = (P2.takeWhile spaceDigit).length := by omega
    rw [h2]
    rw [take_takeWhile_length spaceDigit P2]
  have hdrop : (tableOf a b x y ++ P2).drop ((28 + (P2.takeWhile spaceDigit).length) + 1)
      = P2.drop (P2.takeWhile spaceDigit).length := by
    rw [List.drop_append_eq_append_drop, hlen29]
    have h1 : (tableOf a b x y).drop (28 + (P2.takeWhile spaceDigit).length + 1) = [] :=
      List.drop_eq_nil_iff.mpr (by rw [hlen29]; omega)
    rw [h1]
    have h2 : 28 + (P2.takeWhile spaceDigit).length + 1 - 29
        = (P2.takeWhile spaceDigit).length := by omega
    rw [h2]
    simp
  rw [htake, hdrop]
  rw [scanFuel_pipeFree_nil (pipeFree_drop hP _) f]

end ItemDefReview

namespace ItemDefReview

/-- Claim C1 counterexample: prose before the table containing a single pipe
character makes the match start at that pipe, so the header row of the match
is the prose fragment (yielding no column names) and the parser returns two
empty records instead of `[{"A": "x", "B": "y"}]`. -/
theorem C1_counterexample :
    parse_markdown_table "intro |note\n| A | B |\n|---|---|\n| x | y |" = [[], []] ∧
    parse_markdown_table "intro |note\n| A | B |\n|---|---|\n| x | y |"
      ≠ [[("A", "x"), ("B", "y")]] :=
  ⟨by decide, by decide⟩

/-- Claim C1 (amended): for every input that is the well-formed table
`| A | B |` / `|---|---|` / `| x | y |` with arbitrary prose before and
after it, where the prose contains no pipe character, `parse_markdown_table`
returns exactly `[{"A": "x", "B": "y"}]`.  (The pipe-free restriction is
forced: a pipe in the prose changes the match, see the counterexample.) -/
theorem C1_amended_single_table (P1 P2 : List Char)
    (h1 : PipeFree P1) (h2 : PipeFree P2) :
    parse_markdown_table (String.mk (P1 ++ (tableT1 ++ P2)))
      = [[("A", "x"), ("B", "y")]] := by
  unfold parse_markdown_table parseTablesAux
  have hdata : (String.mk (P1 ++ (tableT1 ++ P2))).data = P1 ++ (tableT1 ++ P2) := rfl
  rw [hdata]
  have hfuel : (P1 ++ (tableT1 ++ P2)).length + 1
      = P1.length + ((tableT1 ++ P2).length + 1) := by
    simp
    omega
  rw [hfuel, scanFuel_append_pipeFree h1]
  have ht1 : tableT1 = tableOf 'A' 'B' 'x' 'y' := rfl
  rw [ht1]
  rw [scanFuel_table 'A' 'B' 'x' 'y' (by decide) (by decide) (by decide) (by decide) h2]
  simp only [List.map_cons, List.map_nil, List.flatten_cons, List.flatten_nil, List.append_nil]
  have hwfree : PipeFree (P2.takeWhile spaceDigit) :=
    pipeFree_of_sub (fun c hc => (List.takeWhile_sublist spaceDigit).mem hc) h2
  rw [processTable_table 'A' 'B' 'x' 'y' (by decide) (by decide) (by decide) (by decide)
    (by decide) (by decide) (by decide) (by decide) (by decide) hwfree]

theorem C1_amended_witness :
    parse_markdown_table (String.mk (("hello world\n".data) ++
      (tableT1 ++ ("\nsome trailing prose".data)))) = [[("A", "x"), ("B", "y")]] :=
  C1_amended_single_table ("hello world\n".data) ("\nsome trailing prose".data)
    (by decide : ('|' : Char) ∉ ("hello world\n".data))
    (by decide : ('|' : Char) ∉ ("\nsome trailing prose".data))

end ItemDefReview

namespace ItemDefReview

theorem splitChar_append_parts (sep : Char) (a : List Char) {b : List Char} {g : List Char}
    {gs : List (List Char)} (hb : splitChar sep b = g :: gs) :
    splitChar sep (a ++ b)
      = (splitChar sep a).dropLast ++ ((splitChar sep a).getLastD [] ++ g) :: gs := by
  induction a with
  | nil =>
    simp only [List.nil_append, splitChar]
    simpa using hb
  | cons c a ih =>
    cases hsa : splitChar sep a with
    | nil => exact absurd hsa (splitChar_ne_nil sep a)
    | cons g0 gs0 =>
      rw [hsa] at ih
      simp only [List.cons_append]
      cases gs0 with
      | nil =>
        have hr2 : splitChar sep (a ++ b) = (g0 ++ g) :: gs := by
          rw [ih]
          simp
        rw [splitChar_cons_eq sep c (a ++ b) hr2, splitChar_cons_eq sep c a hsa]
        by_cases hc : c = sep
        · rw [if_pos hc, if_pos hc]
          simp
        · rw [if_neg hc, if_neg hc]
          simp
      | cons g1 gs1 =>
        have hr2 : splitChar sep (a ++ b)
            = g0 :: ((g1 :: gs1).dropLast ++ ((g1 :: gs1).getLastD [] ++ g) :: gs) := by
          rw [ih]
          simp
        rw [splitChar_cons_eq sep c (a ++ b) hr2, splitChar_cons_eq sep c a hsa]
        by_cases hc : c = sep
        · rw [if_pos hc, if_pos hc]
          simp
        · rw [if_neg hc, if_neg hc]
          simp

end ItemDefReview

namespace ItemDefReview

theorem drop_append_ge (l1 l2 : List Char) {n : Nat} (h : l1.length ≤ n) :
    (l1 ++ l2).drop n = l2.drop (n - l1.length) := by
  rw [List.drop_append_eq_append_drop, List.drop_eq_nil_iff.mpr h]
  simp

theorem take_append_ge (l1 l2 : List Char) {n : Nat} (h : l1.length ≤ n) :
    (l1 ++ l2).take n = l1 ++ l2.take (n - l1.length) := by
  rw [List.take_append_eq_append_take, List.take_of_length_le h]

theorem length_tableOf (a b x y : Char) : (tableOf a b x y).length = 29 := by
  simp [tableOf]

theorem tablePattern_two_tables (a b x y c2 d2 u v : Char)
    (hu1 : pySpace u = false) (hu2 : u ≠ '|') (hv1 : pySpace v = false) (hv2 : v ≠ '|')
    {Pm P2 : List Char} (hP : PipeFree P2) (fuel : Nat) :
    tablePattern fuel (tableOf a b x y ++ (Pm ++ (tableOf c2 d2 u v ++ P2)))
      (fun rest => some rest)
      = some (P2.drop (P2.takeWhile spaceDigit).length) := by
  unfold tablePattern mSeq
  have hsplit : tableOf a b x y ++ (Pm ++ (tableOf c2 d2 u v ++ P2))
      = '|' :: ((tableOf a b x y ++ (Pm ++ (tableOf c2 d2 u v ++ P2))).drop 1) := by
    simp [tableOf]
  rw [hsplit, mChar_cons_self]
  unfold mClassStar
  rw [takeWhile_anyChar]
  have hlen : ((tableOf a b x y ++ (Pm ++ (tableOf c2 d2 u v ++ P2))).drop 1).length
      = 57 + Pm.length + P2.length := by
    simp [tableOf]
    omega
  rw [hlen]
  rw [@tryDrops_congr_below _ _ (36 + Pm.length) _ (by omega) ?_]
  · apply tryDrops_hit
    have hdrop : ((tableOf a b x y ++ (Pm ++ (tableOf c2 d2 u v ++ P2))).drop 1).drop
        (36 + Pm.length) = (tableOf c2 d2 u v ++ P2).drop 8 := by
      rw [List.drop_drop]
      rw [drop_append_ge _ _ (by rw [length_tableOf]; omega)]
      rw [length_tableOf]
      rw [drop_append_ge _ _ (by omega)]
      congr 1
      omega
    rw [hdrop]
    have hdrop8 : (tableOf c2 d2 u v ++ P2).drop 8
        = '|' :: '\n' :: '|' :: '-' :: '-' :: '-' :: '|' :: '-' :: '-' :: '-' :: '|' :: '\n' ::
          '|' :: ' ' :: u :: ' ' :: '|' :: ' ' :: v :: ' ' :: '|' :: P2 := by
      simp [tableOf]
    rw [hdrop8]
    exact hdrEnd_success u v P2 hP fuel
  · intro j hj hjle
    rw [List.drop_drop, Nat.add_comm 1 j]
    rw [drop_append_ge _ _ (by rw [length_tableOf]; omega)]
    rw [length_tableOf]
    rcases Nat.lt_or_ge (j + 1 - 29) (Pm.length + 29) with hcase | hcase
    · rw [drop_append_ge _ _ (by omega)]
      exact hdrEnd_fail_table_drop c2 d2 u v hu1 hu2 hv1 hv2 hP fuel _ (j + 1 - 29 - Pm.length)
        (by omega) (by omega)
    · rw [drop_append_ge _ _ (by omega)]
      rw [drop_append_ge _ _ (by rw [length_tableOf]; omega)]
      exact hdrEnd_fail_pipeFree_drop hP _ fuel _

theorem matchHere_two_tables (a b x y c2 d2 u v : Char)
    (hu1 : pySpace u = false) (hu2 : u ≠ '|') (hv1 : pySpace v = false) (hv2 : v ≠ '|')
    {Pm P2 : List Char} (hP : PipeFree P2) :
    matchHere (tableOf a b x y ++ (Pm ++ (tableOf c2 d2 u v ++ P2)))
      = some (58 + Pm.length + (P2.takeWhile spaceDigit).length) := by
  unfold matchHere
  rw [tablePattern_two_tables a b x y c2 d2 u v hu1 hu2 hv1 hv2 hP]
  have hlen : (tableOf a b x y ++ (Pm ++ (tableOf c2 d2 u v ++ P2))).length
      = 58 + Pm.length + P2.length := by
    simp [tableOf]
    omega
  have hrle : (P2.takeWhile spaceDigit).length ≤ P2.length :=
    List.Sublist.length_le (List.takeWhile_sublist spaceDigit)
  have hdlen : (P2.drop (P2.takeWhile spaceDigit).length).length
      = P2.length - (P2.takeWhile spaceDigit).length := by
    simp
  rw [hlen]
  show some (58 + Pm.length + P2.length - (P2.drop (P2.takeWhile spaceDigit).length).length)
      = some (58 + Pm.length + (P2.takeWhile spaceDigit).length)
  rw [hdlen]
  congr 1
  omega

theorem scanFuel_two_tables (a b x y c2 d2 u v : Char)
    (hu1 : pySpace u = false) (hu2 : u ≠ '|') (hv1 : pySpace v = false) (hv2 : v ≠ '|')
    {Pm P2 : List Char} (hP : PipeFree P2) (f : Nat) :
    scanFuel (f + 1) (tableOf a b x y ++ (Pm ++ (tableOf c2 d2 u v ++ P2)))
      = [tableOf a b x y ++ (Pm ++ (tableOf c2 d2 u v ++ P2.takeWhile spaceDigit))] := by
  rw [scanFuel_succ, matchHere_two_tables a b x y c2 d2 u v hu1 hu2 hv1 hv2 hP]
  have h58 : 58 + Pm.length + (P2.takeWhile spaceDigit).length
      = (57 + Pm.length + (P2.takeWhile spaceDigit).length) + 1 := by omega
  rw [h58]
  show (tableOf a b x y ++ (Pm ++ (tableOf c2 d2 u v ++ P2))).take
        ((57 + Pm.length + (P2.takeWhile spaceDigit).length) + 1) ::
      scanFuel f ((tableOf a b x y ++ (Pm ++ (tableOf c2 d2 u v ++ P2))).drop
        ((57 + Pm.length + (P2.takeWhile spaceDigit).length) + 1))
      = [tableOf a b x y ++ (Pm ++ (tableOf c2 d2 u v ++ P2.takeWhile spaceDigit))]
  have htake : (tableOf a b x y ++ (Pm ++ (tableOf c2 d2 u v ++ P2))).take
        ((57 + Pm.length + (P2.takeWhile spaceDigit).length) + 1)
      = tableOf a b x y ++ (Pm ++ (tableOf c2 d2 u v ++ P2.takeWhile spaceDigit)) := by
    rw [take_append_ge _ _ (by rw [length_tableOf]; omega), length_tableOf]
    rw [take_append_ge _ _ (by omega)]
    rw [take_append_ge _ _ (by rw [length_tableOf]; omega), length_tableOf]
    have harith : 57 + Pm.length + (P2.takeWhile spaceDigit).length + 1 - 29 - Pm.length - 29
        = (P2.takeWhile spaceDigit).length := by omega
    rw [harith, take_takeWhile_length]
  have hdrop : (tableOf a b x y ++ (Pm ++ (tableOf c2 d2 u v ++ P2))).drop
        ((57 + Pm.length + (P2.takeWhile spaceDigit).length) + 1)
      = P2.drop (P2.takeWhile spaceDigit).length := by
    rw [drop_append_ge _ _ (by rw [length_tableOf]; omega), length_tableOf]
    rw [drop_append_ge _ _ (by omega)]
    rw [drop_append_ge _ _ (by rw [length_tableOf]; omega), length_tableOf]
    congr 1
    omega
  rw [htake, hdrop, scanFuel_pipeFree_nil (pipeFree_drop hP _) f]

end ItemDefReview

namespace ItemDefReview

theorem stripChars_left_append {c1 c2 : Char} (h1 : pySpace c1 = false)
    (h2 : pySpace c2 = false) (w0 mid : List Char) :
    stripChars (w0 ++ (c1 :: mid ++ [c2]))
      = w0.dropWhile pySpace ++ (c1 :: mid ++ [c2]) := by
  unfold stripChars
  have hfix : (c1 :: mid ++ [c2]).dropWhile pySpace = c1 :: mid ++ [c2] :=
    dropWhile_cons_of_neg_self h1 _
  rw [dropWhile_append_of_fix w0 hfix]
  have hrev : (w0.dropWhile pySpace ++ (c1 :: mid ++ [c2])).reverse
      = c2 :: (mid.reverse ++ [c1] ++ (w0.dropWhile pySpace).reverse) := by
    simp
  rw [hrev, dropWhile_cons_of_neg_self h2]
  simp

theorem rowCells_pipeFree_prefix {u : List Char} (hu : PipeFree u) (v : List Char) :
    rowCells (u ++ '|' :: v) = rowCells ('|' :: v) := by
  unfold rowCells innerCells
  have hv : splitChar '|' ('|' :: v) = [] :: splitChar '|' v := by
    have := splitChar_sep_cons '|' [] v (by simp)
    simpa using this
  have hu2 : splitChar '|' (u ++ '|' :: v) = u :: splitChar '|' v := by
    have := splitChar_noSep_append '|' u ('|' :: v) hu hv
    simpa using this
  rw [hv, hu2]
  simp

theorem pipeFree_dropWhile {u : List Char} (hu : PipeFree u) :
    PipeFree (u.dropWhile pySpace) :=
  pipeFree_of_sub (fun _ hc => (List.dropWhile_sublist pySpace).mem hc) hu

end ItemDefReview

namespace ItemDefReview

theorem rowRecord_congr_cells (headers : List String) {l1 l2 : List Char}
    (h : rowCells l1 = rowCells l2) : rowRecord headers l1 = rowRecord headers l2 := by
  unfold rowRecord
  rw [h]

theorem rowRecord_row (a b e f2 : Char) (he1 : pySpace e = false) (he2 : e ≠ '|')
    (hf1 : pySpace f2 = false) (hf2 : f2 ≠ '|') (hab : a ≠ b)
    (tail : List Char) (htail : PipeFree tail) :
    rowRecord [String.mk [a], String.mk [b]]
      (('|' :: ' ' :: e :: ' ' :: '|' :: ' ' :: f2 :: ' ' :: '|' :: []) ++ tail)
      = some [(String.mk [a], String.mk [e]), (String.mk [b], String.mk [f2])] := by
  have hcells : rowCells (('|' :: ' ' :: e :: ' ' :: '|' :: ' ' :: f2 :: ' ' :: '|' :: []) ++ tail)
      = [String.mk [e], String.mk [f2]] := by
    have := rowCells_bounded e f2 he2 hf2 tail htail
    rw [this, stripChars_space_mid e he1, stripChars_space_mid f2 hf1]
  have hene : String.mk [e] ≠ "" := by
    intro h
    have : ([e] : List Char) = [] := congrArg String.data h
    cases this
  have habne : String.mk [a] ≠ String.mk [b] := by
    intro h
    have hl : ([a] : List Char) = [b] := congrArg String.data h
    exact hab (List.cons_eq_cons.mp hl).1
  unfold rowRecord
  rw [hcells]
  rw [if_pos (by simp [hene])]
  simp only [List.zip_cons_cons, List.zip_nil_right]
  simp [pyDictOfPairs, pyDictInsert, habne]

theorem rowRecord_sepRow (a b : Char) (hab : a ≠ b) :
    rowRecord [String.mk [a], String.mk [b]] ['|', '-', '-', '-', '|', '-', '-', '-', '|']
      = some [(String.mk [a], String.mk ['-', '-', '-']),
              (String.mk [b], String.mk ['-', '-', '-'])] := by
  have hcells : rowCells ['|', '-', '-', '-', '|', '-', '-', '-', '|']
      = [String.mk ['-', '-', '-'], String.mk ['-', '-', '-']] := by decide
  have hne : String.mk ['-', '-', '-'] ≠ "" := by decide
  have habne : String.mk [a] ≠ String.mk [b] := by
    intro h
    have hl : ([a] : List Char) = [b] := congrArg String.data h
    exact hab (List.cons_eq_cons.mp hl).1
  unfold rowRecord
  rw [hcells]
  rw [if_pos (by simp [hne])]
  simp only [List.zip_cons_cons, List.zip_nil_right]
  simp [pyDictOfPairs, pyDictInsert, habne]

theorem getLastD_mem (l : List (List Char)) (h : l ≠ []) : l.getLastD [] ∈ l := by
  induction l with
  | nil => exact absurd rfl h
  | cons q qs ih =>
    cases hqs : qs with
    | nil => simp [List.getLastD]
    | cons q1 qs1 =>
      subst hqs
      have h2 := ih (by simp)
      have heq : (q :: q1 :: qs1).getLastD [] = (q1 :: qs1).getLastD [] := by
        simp [List.getLastD_eq_getLast?]
      rw [heq]
      exact List.mem_cons_of_mem q h2

theorem processTable_two_tables (a b x y c2 d2 u v : Char)
    (ha1 : pySpace a = false) (ha2 : a ≠ '|') (hb1 : pySpace b = false) (hb2 : b ≠ '|')
    (hx1 : pySpace x = false) (hx2 : x ≠ '|') (hy1 : pySpace y = false) (hy2 : y ≠ '|')
    (hc1 : pySpace c2 = false) (hc2 : c2 ≠ '|') (hd1 : pySpace d2 = false) (hd2 : d2 ≠ '|')
    (hu1 : pySpace u = false) (hu2 : u ≠ '|') (hv1 : pySpace v = false) (hv2 : v ≠ '|')
    (hab : a ≠ b) {Pm2 w : List Char} (hPm : PipeFree Pm2) (hw : PipeFree w) :
    processTable (tableOf a b x y ++ (('\n' :: Pm2) ++ (tableOf c2 d2 u v ++ w)))
      = [[(String.mk [a], String.mk [x]), (String.mk [b], String.mk [y])],
         [(String.mk [a], String.mk [c2]), (String.mk [b], String.mk [d2])],
         [(String.mk [a], String.mk ['-', '-', '-']), (String.mk [b], String.mk ['-', '-', '-'])],
         [(String.mk [a], String.mk [u]), (String.mk [b], String.mk [v])]] := by
  have hpipe : pySpace '|' = false := by decide
  -- the `.strip()` of the matched block.
  have hform : tableOf a b x y ++ (('\n' :: Pm2) ++ (tableOf c2 d2 u v ++ w))
      = ('|' :: ([' ', a, ' ', '|', ' ', b, ' ', '|', '\n',
          '|', '-', '-', '-', '|', '-', '-', '-', '|', '\n',
          '|', ' ', x, ' ', '|', ' ', y, ' ', '|', '\n'] ++ Pm2 ++
          ['|', ' ', c2, ' ', '|', ' ', d2, ' ', '|', '\n',
          '|', '-', '-', '-', '|', '-', '-', '-', '|', '\n',
          '|', ' ', u, ' ', '|', ' ', v, ' ']) ++ ['|']) ++ w := by
    simp [tableOf]
  have hstrip : stripChars (tableOf a b x y ++ (('\n' :: Pm2) ++ (tableOf c2 d2 u v ++ w)))
      = tableOf a b x y ++ (('\n' :: Pm2) ++ (tableOf c2 d2 u v ++
          (w.reverse.dropWhile pySpace).reverse)) := by
    rw [hform]
    rw [stripChars_bounded_append hpipe hpipe
      ([' ', a, ' ', '|', ' ', b, ' ', '|', '\n',
        '|', '-', '-', '-', '|', '-', '-', '-', '|', '\n',
        '|', ' ', x, ' ', '|', ' ', y, ' ', '|', '\n'] ++ Pm2 ++
        ['|', ' ', c2, ' ', '|', ' ', d2, ' ', '|', '\n',
        '|', '-', '-', '-', '|', '-', '-', '-', '|', '\n',
        '|', ' ', u, ' ', '|', ' ', v, ' ']) w]
    simp [tableOf]
  set w2 : List Char := (w.reverse.dropWhile pySpace).reverse with hw2def
  have hw2 : PipeFree w2 := pipeFree_rstrip hw
  obtain ⟨gw, gsw, hsplitw⟩ : ∃ g gs, splitChar '\n' w2 = g :: gs := by
    cases h : splitChar '\n' w2 with
    | nil => exact absurd h (splitChar_ne_nil '\n' w2)
    | cons g gs => exact ⟨g, gs, rfl⟩
  have hgw : PipeFree gw :=
    pipeFree_of_sub (fun ch hc => mem_of_mem_splitChar (hsplitw ▸ List.mem_cons_self gw gsw) hc) hw2
  have hgsw : ∀ piece ∈ gsw, PipeFree piece := fun piece hp =>
    pipeFree_of_sub (fun ch hc =>
      mem_of_mem_splitChar (hsplitw ▸ List.mem_cons_of_mem gw hp) hc) hw2
  have hnlmem : ∀ (e f2 : Char), pySpace e = false → pySpace f2 = false →
      ('\n' : Char) ∉ ['|', ' ', e, ' ', '|', ' ', f2, ' ', '|'] := by
    intro e f2 he hf hm
    simp only [List.mem_cons, List.not_mem_nil, or_false] at hm
    rcases hm with h | h | h | h | h | h | h | h | h <;>
      first
        | exact absurd h (by decide)
        | (subst h; exact absurd he (by decide))
        | (subst h; exact absurd hf (by decide))
  have hnl2 : ('\n' : Char) ∉ ['|', '-', '-', '-', '|', '-', '-', '-', '|'] := by decide
  -- split of the second table followed by the stripped tail.
  have hsplitY : splitChar '\n' (tableOf c2 d2 u v ++ w2)
      = ['|', ' ', c2, ' ', '|', ' ', d2, ' ', '|'] ::
        ['|', '-', '-', '-', '|', '-', '-', '-', '|'] ::
        (['|', ' ', u, ' ', '|', ' ', v, ' ', '|'] ++ gw) :: gsw := by
    have hshape : tableOf c2 d2 u v ++ w2
        = ['|', ' ', c2, ' ', '|', ' ', d2, ' ', '|'] ++ '\n' ::
            (['|', '-', '-', '-', '|', '-', '-', '-', '|'] ++ '\n' ::
              (['|', ' ', u, ' ', '|', ' ', v, ' ', '|'] ++ w2)) := by
      simp [tableOf]
    rw [hshape]
    rw [splitChar_sep_cons '\n' _ _ (hnlmem c2 d2 hc1 hd1)]
    rw [splitChar_sep_cons '\n' _ _ hnl2]
    rw [splitChar_noSep_append '\n' _ _ (hnlmem u v hu1 hv1) hsplitw]
  -- split of the middle prose followed by it.
  obtain ⟨q, qs, hsplitPm⟩ : ∃ q qs, splitChar '\n' Pm2 = q :: qs := by
    cases h : splitChar '\n' Pm2 with
    | nil => exact absurd h (splitChar_ne_nil '\n' Pm2)
    | cons q qs => exact ⟨q, qs, rfl⟩
  have hpmpieces : ∀ piece ∈ splitChar '\n' Pm2, PipeFree piece := fun piece hp =>
    pipeFree_of_sub (fun ch hc => mem_of_mem_splitChar hp hc) hPm
  have hsplitM : splitChar '\n' (Pm2 ++ (tableOf c2 d2 u v ++ w2))
      = (splitChar '\n' Pm2).dropLast ++
        (((splitChar '\n' Pm2).getLastD [] ++ ['|', ' ', c2, ' ', '|', ' ', d2, ' ', '|']) ::
          ['|', '-', '-', '-', '|', '-', '-', '-', '|'] ::
          (['|', ' ', u, ' ', '|', ' ', v, ' ', '|'] ++ gw) :: gsw) :=
    splitChar_append_parts '\n' Pm2 hsplitY
  -- split of the whole block.
  have hlines0 : splitChar '\n'
      (tableOf a b x y ++ (('\n' :: Pm2) ++ (tableOf c2 d2 u v ++ w2)))
      = ['|', ' ', a, ' ', '|', ' ', b, ' ', '|'] ::
        ['|', '-', '-', '-', '|', '-', '-', '-', '|'] ::
        ['|', ' ', x, ' ', '|', ' ', y, ' ', '|'] ::
        ((splitChar '\n' Pm2).dropLast ++
          (((splitChar '\n' Pm2).getLastD [] ++ ['|', ' ', c2, ' ', '|', ' ', d2, ' ', '|']) ::
            ['|', '-', '-', '-', '|', '-', '-', '-', '|'] ::
            (['|', ' ', u, ' ', '|', ' ', v, ' ', '|'] ++ gw) :: gsw)) := by
    have hshape : tableOf a b x y ++ (('\n' :: Pm2) ++ (tableOf c2 d2 u v ++ w2))
        = ['|', ' ', a, ' ', '|', ' ', b, ' ', '|'] ++ '\n' ::
            (['|', '-', '-', '-', '|', '-', '-', '-', '|'] ++ '\n' ::
              (['|', ' ', x, ' ', '|', ' ', y, ' ', '|'] ++ '\n' ::
                (Pm2 ++ (tableOf c2 d2 u v ++ w2)))) := by
      simp [tableOf]
    rw [hshape]
    rw [splitChar_sep_cons '\n' _ _ (hnlmem a b ha1 hb1)]
    rw [splitChar_sep_cons '\n' _ _ hnl2]
    rw [splitChar_sep_cons '\n' _ _ (hnlmem x y hx1 hy1)]
    rw [hsplitM]
  -- per-line strips.
  have hstripRow : ∀ e f2 : Char, stripChars ['|', ' ', e, ' ', '|', ' ', f2, ' ', '|']
      = ['|', ' ', e, ' ', '|', ' ', f2, ' ', '|'] := by
    intro e f2
    have := stripChars_bounded_append hpipe hpipe [' ', e, ' ', '|', ' ', f2, ' '] []
    simpa using this
  have hstripSep : stripChars ['|', '-', '-', '-', '|', '-', '-', '-', '|']
      = ['|', '-', '-', '-', '|', '-', '-', '-', '|'] := by decide
  have hstripG2 : stripChars (['|', ' ', u, ' ', '|', ' ', v, ' ', '|'] ++ gw)
      = ['|', ' ', u, ' ', '|', ' ', v, ' ', '|'] ++ (gw.reverse.dropWhile pySpace).reverse := by
    have := stripChars_bounded_append hpipe hpipe [' ', u, ' ', '|', ' ', v, ' '] gw
    simpa using this
  set pmLast : List Char := (splitChar '\n' Pm2).getLastD [] with hpmLastDef
  have hpmLastFree : PipeFree pmLast := by
    rw [hpmLastDef]
    exact pipeFree_of_sub
      (fun ch hc => mem_of_mem_splitChar
        (getLastD_mem (splitChar '\n' Pm2) (splitChar_ne_nil '\n' Pm2)) hc) hPm
  have hstripGlue : stripChars (pmLast ++ ['|', ' ', c2, ' ', '|', ' ', d2, ' ', '|'])
      = pmLast.dropWhile pySpace ++ ['|', ' ', c2, ' ', '|', ' ', d2, ' ', '|'] := by
    have := stripChars_left_append hpipe hpipe pmLast [' ', c2, ' ', '|', ' ', d2, ' ']
    simpa using this
  set rgw : List Char := (gw.reverse.dropWhile pySpace).reverse with hrgwDef
  have hrgw : PipeFree rgw := pipeFree_rstrip hgw
  -- records of the four record-yielding lines.
  have hheaders : rowCells ['|', ' ', a, ' ', '|', ' ', b, ' ', '|']
      = [String.mk [a], String.mk [b]] := by
    have := rowCells_bounded a b ha2 hb2 [] (by intro hm; cases hm)
    simp only [List.append_nil] at this
    rw [this, stripChars_space_mid a ha1, stripChars_space_mid b hb1]
  have hrow1 : rowRecord [String.mk [a], String.mk [b]] ['|', ' ', x, ' ', '|', ' ', y, ' ', '|']
      = some [(String.mk [a], String.mk [x]), (String.mk [b], String.mk [y])] := by
    have := rowRecord_row a b x y hx1 hx2 hy1 hy2 hab [] (by intro hm; cases hm)
    simpa using this
  have hrow2 : rowRecord [String.mk [a], String.mk [b]]
      (pmLast.dropWhile pySpace ++ ['|', ' ', c2, ' ', '|', ' ', d2, ' ', '|'])
      = some [(String.mk [a], String.mk [c2]), (String.mk [b], String.mk [d2])] := by
    have hcongr : rowCells (pmLast.dropWhile pySpace ++ ['|', ' ', c2, ' ', '|', ' ', d2, ' ', '|'])
        = rowCells (['|', ' ', c2, ' ', '|', ' ', d2, ' ', '|'] ++ []) := by
      have := rowCells_pipeFree_prefix (pipeFree_dropWhile hpmLastFree)
        [' ', c2, ' ', '|', ' ', d2, ' ', '|']
      simpa using this
    rw [rowRecord_congr_cells _ hcongr]
    exact rowRecord_row a b c2 d2 hc1 hc2 hd1 hd2 hab [] (by intro hm; cases hm)
  have hrow3 : rowRecord [String.mk [a], String.mk [b]]
      ['|', '-', '-', '-', '|', '-', '-', '-', '|']
      = some [(String.mk [a], String.mk ['-', '-', '-']),
              (String.mk [b], String.mk ['-', '-', '-'])] :=
    rowRecord_sepRow a b hab
  have hrow4 : rowRecord [String.mk [a], String.mk [b]]
      (['|', ' ', u, ' ', '|', ' ', v, ' ', '|'] ++ rgw)
      = some [(String.mk [a], String.mk [u]), (String.mk [b], String.mk [v])] :=
    rowRecord_row a b u v hu1 hu2 hv1 hv2 hab rgw hrgw
  -- assemble.
  unfold processTable
  rw [hstrip, hlines0]
  simp only [List.map_cons, List.map_append, hstripRow, hstripSep, hstripG2, hstripGlue]
  show (if (List.length (['|', '-', '-', '-', '|', '-', '-', '-', '|'] ::
      (['|', ' ', x, ' ', '|', ' ', y, ' ', '|'] ::
        (((splitChar '\n' Pm2).dropLast.map stripChars) ++
          ((pmLast.dropWhile pySpace ++ ['|', ' ', c2, ' ', '|', ' ', d2, ' ', '|']) ::
            ['|', '-', '-', '-', '|', '-', '-', '-', '|'] ::
            (['|', ' ', u, ' ', '|', ' ', v, ' ', '|'] ++ rgw) :: gsw.map stripChars)))) = 0)
      then ([] : List (List (String × String))) else _) = _
  rw [if_neg (by simp)]
  show List.foldl _ []
      ((['|', ' ', x, ' ', '|', ' ', y, ' ', '|'] ::
        (((splitChar '\n' Pm2).dropLast.map stripChars) ++
          ((pmLast.dropWhile pySpace ++ ['|', ' ', c2, ' ', '|', ' ', d2, ' ', '|']) ::
            ['|', '-', '-', '-', '|', '-', '-', '-', '|'] ::
            (['|', ' ', u, ' ', '|', ' ', v, ' ', '|'] ++ rgw) :: gsw.map stripChars))).drop 0) = _
  simp only [List.drop_zero, List.foldl_cons, List.foldl_append]
  rw [hheaders, hrow1]
  have hmidNone : ∀ l ∈ (splitChar '\n' Pm2).dropLast.map stripChars,
      rowRecord [String.mk [a], String.mk [b]] l = none := by
    intro l hl
    obtain ⟨piece, hpiece, rfl⟩ := List.mem_map.mp hl
    have hpf : PipeFree piece :=
      hpmpieces piece ((List.dropLast_sublist (splitChar '\n' Pm2)).mem hpiece)
    exact rowRecord_pipeFree _ (pipeFree_stripChars hpf)
  rw [foldl_rowRecord_none _ _ _ hmidNone]
  simp only [List.foldl_cons]
  rw [hrow2, hrow3, hrow4]
  refine foldl_rowRecord_none _ _ _ ?_
  intro l hl
  obtain ⟨piece, hpiece, rfl⟩ := List.mem_map.mp hl
  exact rowRecord_pipeFree _ (pipeFree_stripChars (hgsw piece hpiece))

end ItemDefReview

namespace ItemDefReview

/-- Claim C3 counterexample: two well-formed tables separated by prose are
merged into a single regex match anchored at the second table's separator
row, so the parser does not return the two tables' data rows: it keys every
row by the first table's headers and also emits records for the second
table's header row and separator row.  The record count is 4, not 2. -/
theorem C3_counterexample :
    parse_markdown_table
        "| A | B |\n|---|---|\n| x | y |\n\nprose here\n\n| C | D |\n|---|---|\n| u | v |"
      = [[("A", "x"), ("B", "y")], [("A", "C"), ("B", "D")],
         [("A", "---"), ("B", "---")], [("A", "u"), ("B", "v")]] ∧
    parse_markdown_table
        "| A | B |\n|---|---|\n| x | y |\n\nprose here\n\n| C | D |\n|---|---|\n| u | v |"
      ≠ [[("A", "x"), ("B", "y")], [("C", "u"), ("D", "v")]] ∧
    (parse_markdown_table
        "| A | B |\n|---|---|\n| x | y |\n\nprose here\n\n| C | D |\n|---|---|\n| u | v |").length
      ≠ 2 :=
  ⟨by decide, by decide, by decide⟩

/-- Claim C3 (amended): for an input holding the two well-formed tables
`| A | B |`-`| x | y |` and `| C | D |`-`| u | v |` separated by pipe-free
prose (and with pipe-free prose around them), the regex merges both tables
into one match anchored at the second table's separator: records appear in
input order but are all keyed by the FIRST table's headers, and the second
table contributes its header row and its separator row as data records, so
the total is not the sum of the tables' data-row counts. -/
theorem C3_amended_tables_merge (P1 Pm2 P2 : List Char)
    (h1 : PipeFree P1) (hm : PipeFree Pm2) (h2 : PipeFree P2) :
    parse_markdown_table
        (String.mk (P1 ++ (tableT1 ++ (('\n' :: Pm2) ++ (tableT2 ++ P2)))))
      = [[("A", "x"), ("B", "y")], [("A", "C"), ("B", "D")],
         [("A", "---"), ("B", "---")], [("A", "u"), ("B", "v")]] := by
  unfold parse_markdown_table parseTablesAux
  have hdata : (String.mk (P1 ++ (tableT1 ++ (('\n' :: Pm2) ++ (tableT2 ++ P2))))).data
      = P1 ++ (tableT1 ++ (('\n' :: Pm2) ++ (tableT2 ++ P2))) := rfl
  rw [hdata]
  have hfuel : (P1 ++ (tableT1 ++ (('\n' :: Pm2) ++ (tableT2 ++ P2)))).length + 1
      = P1.length + ((tableT1 ++ (('\n' :: Pm2) ++ (tableT2 ++ P2))).length + 1) := by
    simp
    omega
  rw [hfuel, scanFuel_append_pipeFree h1]
  have ht1 : tableT1 = tableOf 'A' 'B' 'x' 'y' := rfl
  have ht2 : tableT2 = tableOf 'C' 'D' 'u' 'v' := rfl
  rw [ht1, ht2]
  rw [scanFuel_two_tables 'A' 'B' 'x' 'y' 'C' 'D' 'u' 'v'
    (by decide) (by decide) (by decide) (by decide) h2]
  simp only [List.map_cons, List.map_nil, List.flatten_cons, List.flatten_nil, List.append_nil]
  have hwfree : PipeFree (P2.takeWhile spaceDigit) :=
    pipeFree_of_sub (fun c hc => (List.takeWhile_sublist spaceDigit).mem hc) h2
  rw [processTable_two_tables 'A' 'B' 'x' 'y' 'C' 'D' 'u' 'v'
    (by decide) (by decide) (by decide) (by decide) (by decide) (by decide) (by decide) (by decide)
    (by decide) (by decide) (by decide) (by decide) (by decide) (by decide) (by decide) (by decide)
    (by decide) hm hwfree]

theorem C3_amended_witness :
    parse_markdown_table
        (String.mk (("intro\n".data) ++ (tableT1 ++ (('\n' :: ("\nprose here\n\n".data)) ++
          (tableT2 ++ ("\nclosing remarks".data))))))
      = [[("A", "x"), ("B", "y")], [("A", "C"), ("B", "D")],
         [("A", "---"), ("B", "---")], [("A", "u"), ("B", "v")]] :=
  C3_amended_tables_merge ("intro\n".data) ("\nprose here\n\n".data) ("\nclosing remarks".data)
    (by decide : ('|' : Char) ∉ ("intro\n".data))
    (by decide : ('|' : Char) ∉ ("\nprose here\n\n".data))
    (by decide : ('|' : Char) ∉ ("\nclosing remarks".data))

end ItemDefReview

namespace ItemDefReview

/-- A matcher only ever hands a suffix of its input to its continuation. -/
def SuffixSafe (m : Matcher) : Prop :=
  ∀ s k r, m s k = some r → ∃ t, t <:+ s ∧ k t = some r

theorem suffixSafe_mChar (c : Char) : SuffixSafe (mChar c) := by
  intro s k r h
  obtain ⟨t, rfl, hk⟩ := mChar_eq_some h
  exact ⟨t, List.suffix_cons c t, hk⟩

theorem suffixSafe_mClass (p : Char → Bool) : SuffixSafe (mClass p) := by
  intro s k r h
  obtain ⟨c, t, rfl, -, hk⟩ := mClass_eq_some h
  exact ⟨t, List.suffix_cons c t, hk⟩

theorem suffixSafe_mClassStar (p : Char → Bool) : SuffixSafe (mClassStar p) := by
  intro s k r h
  obtain ⟨m, -, hk⟩ := mClassStar_eq_some h
  exact ⟨s.drop m, List.drop_suffix m s, hk⟩

theorem suffixSafe_mSeq {m1 m2 : Matcher} (h1 : SuffixSafe m1) (h2 : SuffixSafe m2) :
    SuffixSafe (mSeq m1 m2) := by
  intro s k r h
  obtain ⟨t1, hs1, hk1⟩ := h1 s _ r h
  obtain ⟨t2, hs2, hk2⟩ := h2 t1 k r hk1
  exact ⟨t2, hs2.trans hs1, hk2⟩

theorem suffixSafe_mStarFuel {m : Matcher} (hm : SuffixSafe m) :
    ∀ fuel, SuffixSafe (mStarFuel m fuel) := by
  intro fuel
  induction fuel with
  | zero =>
    intro s k r h
    exact ⟨s, List.suffix_refl s, h⟩
  | succ fuel ih =>
    intro s k r h
    rw [mStarFuel_succ] at h
    cases hms : m s (fun t => if t.length < s.length then mStarFuel m fuel t k else none) with
    | some r2 =>
      rw [hms] at h
      cases h
      obtain ⟨t1, hs1, hk1⟩ := hm s _ _ hms
      by_cases hlt : t1.length < s.length
      · rw [if_pos hlt] at hk1
        obtain ⟨t2, hs2, hk2⟩ := ih t1 k _ hk1
        exact ⟨t2, hs2.trans hs1, hk2⟩
      · rw [if_neg hlt] at hk1
        cases hk1
    | none =>
      rw [hms] at h
      exact ⟨s, List.suffix_refl s, h⟩

theorem suffixSafe_rowGroup : SuffixSafe rowGroup :=
  suffixSafe_mSeq (suffixSafe_mChar _) (suffixSafe_mSeq (suffixSafe_mClassStar _)
    (suffixSafe_mSeq (suffixSafe_mChar _) (suffixSafe_mClassStar _)))

theorem suffixSafe_tablePattern (fuel : Nat) : SuffixSafe (tablePattern fuel) := by
  unfold tablePattern hdrEnd sepPart afterSep
  refine suffixSafe_mSeq (suffixSafe_mChar _) (suffixSafe_mSeq (suffixSafe_mClassStar _) ?_)
  refine suffixSafe_mSeq (suffixSafe_mChar _) (suffixSafe_mSeq (suffixSafe_mClassStar _) ?_)
  refine suffixSafe_mSeq (suffixSafe_mChar _) (suffixSafe_mSeq (suffixSafe_mClassStar _) ?_)
  refine suffixSafe_mSeq (suffixSafe_mClass _) ?_
  refine suffixSafe_mSeq (suffixSafe_mClassStar _) ?_
  exact suffixSafe_mSeq suffixSafe_rowGroup (suffixSafe_mStarFuel suffixSafe_rowGroup fuel)

theorem matchHere_some_bounds {s : List Char} {c : Nat} (h : matchHere s = some c) :
    1 ≤ c ∧ c ≤ s.length := by
  unfold matchHere at h
  cases hp : tablePattern s.length s (fun rest => some rest) with
  | none => rw [hp] at h; cases h
  | some r =>
    rw [hp] at h
    cases h
    obtain ⟨s1, hs1, hrest⟩ := mChar_eq_some (by
      have hp2 := hp
      unfold tablePattern mSeq at hp2
      exact hp2)
    have hsuffix : ∃ t, t <:+ s1 ∧ (fun rest => some rest) t = some r := by
      refine (suffixSafe_mSeq (suffixSafe_mClassStar anyChar) ?_) s1 _ r hrest
      unfold hdrEnd sepPart afterSep
      refine suffixSafe_mSeq (suffixSafe_mChar _) (suffixSafe_mSeq (suffixSafe_mClassStar _) ?_)
      refine suffixSafe_mSeq (suffixSafe_mChar _) (suffixSafe_mSeq (suffixSafe_mClassStar _) ?_)
      refine suffixSafe_mSeq (suffixSafe_mClass _) ?_
      refine suffixSafe_mSeq (suffixSafe_mClassStar _) ?_
      exact suffixSafe_mSeq suffixSafe_rowGroup (suffixSafe_mStarFuel suffixSafe_rowGroup _)
    obtain ⟨t, hts, hkt⟩ := hsuffix
    cases hkt
    have hlen : r.length ≤ s1.length := List.IsSuffix.length_le hts
    rw [hs1]
    simp only [List.length_cons]
    omega

theorem scanFuel_nil (f : Nat) : scanFuel f [] = [] := by
  cases f with
  | zero => rfl
  | succ f => rfl

theorem scanFuel_fuel_indep :
    ∀ (n : Nat) (s : List Char), s.length ≤ n →
      ∀ f g, s.length ≤ f → s.length ≤ g → scanFuel f s = scanFuel g s := by
  intro n
  induction n with
  | zero =>
    intro s hs f g _ _
    rw [List.length_eq_zero.mp (Nat.le_zero.mp hs)]
    rw [scanFuel_nil, scanFuel_nil]
  | succ n ih =>
    intro s hs f g hf hg
    cases s with
    | nil => rw [scanFuel_nil, scanFuel_nil]
    | cons c t =>
      have hlen : (c :: t).length = t.length + 1 := rfl
      cases f with
      | zero => rw [hlen] at hf; omega
      | succ f =>
        cases g with
        | zero => rw [hlen] at hg; omega
        | succ g =>
          rw [scanFuel_succ, scanFuel_succ]
          cases hm : matchHere (c :: t) with
          | none =>
            simp only [hm]
            exact ih t (by rw [hlen] at hs; omega) f g
              (by rw [hlen] at hf; omega) (by rw [hlen] at hg; omega)
          | some m =>
            obtain ⟨hm1, hm2⟩ := matchHere_some_bounds hm
            cases m with
            | zero => omega
            | succ m =>
              simp only [hm]
              have hdlen : ((c :: t).drop (m + 1)).length = t.length - m := by
                simp
              congr 1
              refine ih ((c :: t).drop (m + 1)) ?_ f g ?_ ?_ <;>
                (rw [hdlen]; rw [hlen] at hs hf hg) <;> omega

/-- Claim C9: `parse_markdown_table` is total.  In the embedding the scan
loop carries fuel `length + 1`; this theorem shows the fuel bound is exact:
any fuel of at least `length + 1` gives the same (always-defined) result, so
the Python loop terminates on every input and the function returns a list of
string-keyed, string-valued records for every input string. -/
theorem C9_parse_total (text : String) (f : Nat) (hf : text.data.length + 1 ≤ f) :
    parseTablesAux f text.data = parse_markdown_table text := by
  unfold parse_markdown_table parseTablesAux
  rw [scanFuel_fuel_indep f text.data (by omega) f (text.data.length + 1)
    (by omega) (by omega)]

theorem C9_parse_total_witness :
    parseTablesAux 1000 ("| A | B |\n|---|---|\n| x | y |".data)
      = parse_markdown_table "| A | B |\n|---|---|\n| x | y |" :=
  C9_parse_total "| A | B |\n|---|---|\n| x | y |" 1000 (by decide)

end ItemDefReview

namespace ItemDefReview

theorem assocFind_insert (d : List (String × Json)) (k : String) (v : Json)
    (key : String) :
    assocFind (assocInsert d k v) key = if k = key then some v else assocFind d key := by
  induction d with
  | nil => by_cases h : k = key <;> simp [assocInsert, assocFind, h]
  | cons hd tl ih =>
    obtain ⟨k0, v0⟩ := hd
    by_cases h0 : k0 = k
    · subst h0
      by_cases h : k0 = key <;> simp [assocInsert, assocFind, h]
    · by_cases h : k0 = key
      · subst h
        simp [assocInsert, assocFind, h0, Ne.symm h0]
      · simp [assocInsert, assocFind, h0, h, ih]

theorem buildFrom_find (items : List Json) :
    ∀ acc : List (String × Json),
      (∀ it ∈ items, (itemId it).isSome) →
      ∃ m, buildChecklistMapFrom acc items = some m ∧
        ∀ id, assocFind m id =
          match (items.filter fun it2 => itemId it2 == some id).getLast? with
          | some it2 => some it2
          | none => assocFind acc id := by
  induction items with
  | nil =>
    intro acc _
    exact ⟨acc, rfl, fun id => rfl⟩
  | cons it rest ih =>
    intro acc hall
    obtain ⟨s, hs⟩ := Option.isSome_iff_exists.mp (hall it (List.mem_cons_self it rest))
    obtain ⟨m, hm, hfind⟩ :=
      ih (assocInsert acc s it) (fun it2 h2 => hall it2 (List.mem_cons_of_mem _ h2))
    refine ⟨m, ?_, ?_⟩
    · rw [show buildChecklistMapFrom acc (it :: rest)
          = buildChecklistMapFrom (assocInsert acc s it) rest from by
        simp [buildChecklistMapFrom, hs]]
      exact hm
    · intro id
      rw [hfind id]
      by_cases hsid : s = id
      · subst hsid
        have hbeq : (itemId it == some s) = true := by rw [hs]; simp
        rw [List.filter_cons, if_pos (by simp [hbeq])]
        cases hfr : rest.filter (fun it2 => itemId it2 == some s) with
        | nil =>
          simp only [hfr, List.getLast?_nil, List.getLast?_singleton]
          rw [assocFind_insert]
          simp
        | cons x xs =>
          simp only [hfr, List.getLast?_cons_cons]
          cases hgl : (x :: xs).getLast? with
          | none => simp at hgl
          | some y => simp [hgl]
      · have hbeq : (itemId it == some id) = false := by
          rw [hs]; simp [hsid]
        rw [List.filter_cons, if_neg (by simp [hbeq])]
        cases hgl : (rest.filter fun it2 => itemId it2 == some id).getLast? with
        | some y => simp
        | none =>
          simp only []
          rw [assocFind_insert]
          simp [hsid]

end ItemDefReview

namespace ItemDefReview

/-- Claim C8: the id-to-item map `{item["id"]: item for item in checklist_items}`
is built by left-to-right dict insertion, so when several items share an id
the map resolves that id to the item appearing last in the source list. -/
theorem C8_last_wins (items : List Json)
    (hids : ∀ it ∈ items, (itemId it).isSome) :
    ∃ m, buildChecklistMap items = some m ∧
      ∀ id it, (items.filter fun it2 => itemId it2 == some id).getLast? = some it →
        assocFind m id = some it := by
  obtain ⟨m, hm, hfind⟩ := buildFrom_find items [] hids
  refine ⟨m, hm, fun id it hlast => ?_⟩
  rw [hfind id, hlast]

theorem C8_last_wins_witness :
    ∃ m, buildChecklistMap c8Items = some m ∧ assocFind m "DUP" = some c8Item2 := by
  obtain ⟨m, hm, h⟩ := C8_last_wins c8Items (by decide)
  exact ⟨m, hm, h "DUP" c8Item2 (by rfl)⟩

/-- Claim C10: when the `content` value of `final_output` contains no pipe
character, `before_cat_sends_message` returns the dict unchanged, leaves the
persistent `last_category` attribute untouched, and writes nothing under the
exports folder. -/
theorem C10_no_pipe_frame (checklist_file : Option String) (pf ts : String)
    (fo : List (String × OutVal)) (last : Option String)
    (h : hookHasPipe fo = false) :
    before_cat_sends_message checklist_file pf ts fo last = Except.ok ⟨fo, last, []⟩ := by
  simp [before_cat_sends_message, h]

theorem C10_no_pipe_frame_witness :
    before_cat_sends_message none "/plug" "ts" [("content", OutVal.str "hello")] none =
      Except.ok ⟨[("content", OutVal.str "hello")], none, []⟩ :=
  C10_no_pipe_frame none "/plug" "ts" [("content", OutVal.str "hello")] none (by decide)

/-- Claim C5, counterexample: `generate_individual_review` embeds a
12,001-character document text into the prompt in full — the prompt is the
literal concatenation of the f-string pieces with the untruncated content,
and its length exceeds the fixed part by the full 12,001 characters, so no
truncation to 12,000 characters and no marker insertion happens. -/
theorem C5_counterexample :
    generate_individual_review_prompt Json.null bigContent =
      promptHeader ++ jsonDumps Json.null ++ promptMiddle ++ bigContent ++ promptTail
    ∧ bigContent.length = 12001
    ∧ (generate_individual_review_prompt Json.null bigContent).length =
        (promptHeader ++ jsonDumps Json.null ++ promptMiddle ++ promptTail).length +
          12001 := by
  have hb : bigContent.length = 12001 := by
    show (List.replicate 12001 'a').length = 12001
    rw [List.length_replicate]
  refine ⟨rfl, hb, ?_⟩
  simp [generate_individual_review_prompt, String.length_append, hb]
  omega

/-- Claim C5, amended: neither prompt builder truncates.  Both prompts are
the f-string pieces with `json.dumps(checklist, indent=2)` and the document
text interpolated verbatim, so the prompt length is the fixed-plus-checklist
part plus the full content length — unbounded in the content. -/
theorem C5_amended_verbatim_unbounded (checklist : Json) (content : String) :
    generate_individual_review_prompt checklist content =
      promptHeader ++ jsonDumps checklist ++ promptMiddle ++ content ++ promptTail
    ∧ review_item_definition_prompt checklist content =
      promptHeader ++ jsonDumps checklist ++ promptMiddle ++ content ++ promptTail ++ "\n"
    ∧ (generate_individual_review_prompt checklist content).length =
        (promptHeader ++ jsonDumps checklist ++ promptMiddle ++ promptTail).length +
          content.length := by
  refine ⟨rfl, rfl, ?_⟩
  simp [generate_individual_review_prompt, String.length_append]
  omega

/-- Claim C6, counterexample: a review row whose id is absent from the
checklist map is emitted under `Uncategorized` — but with description
`"N/A"`, not the empty string the claim states (the requirement cell is
empty). -/
theorem C6_counterexample :
    create_review_package "doc1.txt" c6Review c6Checklist "/plug" "ts" =
      some ⟨"/plug/exports/doc1_review_ts.zip",
        [DocxBlock.heading "ISO 26262 Part 3 - Item Definition Review Report" 1,
         DocxBlock.heading "File: doc1.txt" 2,
         DocxBlock.heading "Uncategorized" 3,
         DocxBlock.table [("Requirement", ""), ("Description", "N/A"),
           ("ISO Clause", "N/A"), ("Result", "Pass"), ("Comment", "ok")],
         DocxBlock.spacer],
        "ID;Requirement;Description;Clause;Status;Comment\r\nZZZ-9;;N/A;N/A;Pass;ok\r\n"⟩
    ∧ ("N/A" : String) ≠ "" := by
  set_option maxRecDepth 100000 in exact ⟨by decide, by decide⟩

/-- Claim C6, amended: a review row whose id misses the checklist map never
fails report assembly.  It is emitted under category `"Uncategorized"` with
requirement `""` and description `"N/A"` in the docx table and the tool CSV;
the hook CSV falls back to the row's own `Requirement` cell instead of `""`. -/
theorem C6_amended_fallbacks (cmap : List (String × Json))
    (item : List (String × String))
    (hmiss : assocFind cmap (pyDictGet item "ID" "") = none) :
    docxRowOf cmap item = some ("Uncategorized", DocxBlock.table
      [("Requirement", ""), ("Description", "N/A"), ("ISO Clause", "N/A"),
       ("Result", pyDictGet item "Status" "Not Reviewed"),
       ("Comment", pyDictGet item "Comment" "")])
    ∧ csvRowOf cmap item = some
      [pyDictGet item "ID" "", "", "N/A", "N/A",
       pyDictGet item "Status" "", pyDictGet item "Comment" ""]
    ∧ hookCsvRow cmap item = some
      [pyDictGet item "ID" "", pyDictGet item "Requirement" "", "N/A", "N/A",
       pyDictGet item "Status" "", pyDictGet item "Comment" ""] := by
  refine ⟨?_, ?_, ?_⟩ <;>
    simp [docxRowOf, csvRowOf, hookCsvRow, hmiss, jsonGetStrD, assocFind]

theorem C6_amended_fallbacks_witness :
    docxRowOf [("REQ-001", Json.obj [])] [("ID", "ZZZ"), ("Status", "Pass")] =
      some ("Uncategorized", DocxBlock.table
        [("Requirement", ""), ("Description", "N/A"), ("ISO Clause", "N/A"),
         ("Result", "Pass"), ("Comment", "")]) := by
  have h := (C6_amended_fallbacks [("REQ-001", Json.obj [])]
    [("ID", "ZZZ"), ("Status", "Pass")] (by rfl)).1
  simpa using h

/-- Claim C7, counterexample: with a syntactically invalid checklist file
the batch tool does not return a user-facing message — the
`JSONDecodeError` raised by `json.load` is not caught by `load_checklist`
or the tool, so the exception propagates to the caller. -/
theorem C7_counterexample :
    review_item_definitions_batch c7Env = Except.error (PyExc.jsonDecode "Invalid JSON")
    ∧ ∀ s, review_item_definitions_batch c7Env ≠ Except.ok s := by
  have h : review_item_definitions_batch c7Env =
      Except.error (PyExc.jsonDecode "Invalid JSON") := by rfl
  exact ⟨h, fun s hs => by rw [h] at hs; exact Except.noConfusion hs⟩

/-- Claim C7, amended: only the missing-file case is handled.  When the
checklist file is absent the batch tool returns the user-facing message
built from the `FileNotFoundError`; when the file exists but holds invalid
JSON the `JSONDecodeError` propagates as an unhandled exception (in both
cases before any per-file processing). -/
theorem C7_amended_notfound_only (env : BatchEnv)
    (hok : env.item_definitions_exists = true)
    (hfiles : files_to_process env ≠ []) :
    (env.checklist_file = none →
      review_item_definitions_batch env = Except.ok
        ("❌ Error loading checklist: " ++
          ("Checklist file not found at " ++ checklist_path env.plugin_folder)))
    ∧ ∀ text, env.checklist_file = some text → json_loads text = none →
      review_item_definitions_batch env =
        Except.error (PyExc.jsonDecode "Invalid JSON") := by
  have hfe : (files_to_process env).isEmpty = false := by
    cases hcase : files_to_process env with
    | nil => exact absurd hcase hfiles
    | cons a l => rfl
  constructor
  · intro hnone
    simp [review_item_definitions_batch, hok, hfe, load_checklist, hnone]
  · intro text hsome hbad
    simp [review_item_definitions_batch, hok, hfe, load_checklist, hsome, hbad]

theorem C7_amended_notfound_only_witness :
    review_item_definitions_batch c7bEnv = Except.ok
      ("❌ Error loading checklist: " ++
        ("Checklist file not found at " ++ checklist_path "/plug")) :=
  (C7_amended_notfound_only c7bEnv (by rfl) (by decide)).1 (by rfl)

end ItemDefReview
